import Mathlib

/-!
Verification of the anemone best-branch search engine.

This file gives a shallow embedding, in Lean, of the parts of the anemone
source that the verified claims talk about:

* the per-node minimax bookkeeping of
  `node_evaluation/node_tree_evaluation/node_minmax_evaluation.py`
  (`record_sort_value_of_child`, `update_branches_values`,
  `update_value_minmax`, `update_over`, `becoming_over_from_children`,
  `minmax_value_update_from_children`);
* the value-sorted dictionary helper `utils/my_value_sorted_dict.py`;
* the MinGlobalChange exploration-index manager of
  `indices/index_manager/node_exploration_manager.py`;
* the direct-evaluation bridge `node_direct_evaluation/node_direct_evaluator.py`;
* the branch-count progress monitor `progress_monitor/progress_monitor.py`;
* the tree manager `tree_manager/tree_manager.py` together with
  `nodes/tree_node.py`, `node_factory/base.py` and `trees/descendants.py`;
* the pending-update multimap `updates/updates_file.py` and
  `updates/value_block.py`;
* the search entry point `tree_and_value_branch_selector.py`.

Modelling conventions:

* Python floats are modelled as rationals (`Rat`); none of the verified
  claims depends on floating-point rounding.
* Branch keys, state tags and node ids are modelled as naturals; they are
  opaque hashable values in the source.
* Python dictionaries are modelled as insertion-ordered association lists
  (`List (Nat × _)`); assignment to an existing key keeps its position,
  assignment to a fresh key appends, matching CPython dict semantics.
* Code that can fail a Python `assert`, raise `KeyError`, or raise
  `AttributeError` is modelled in `Except String`; an `Except.error`
  result models the raised exception (the mutations performed before the
  raise are reflected in the model where a claim depends on them).
-/

namespace Anemone

/-- Player colour. Modelled from the spec: the `turn` of a state is
WHITE or BLACK (the `valanga.Color` enum is external to this repository). -/
inductive Color where
  | WHITE
  | BLACK
deriving DecidableEq, Repr

/-- Tag of a terminal-resolution record.  Modelled from the spec:
`over_event` is `none | win{winner, termination-reason} | draw{termination-reason}`
(the `valanga.OverEvent` class is external to this repository). -/
inductive OverTag where
  | notOver
  | win
  | draw
deriving DecidableEq, Repr

/-- Terminal resolution record.  Modelled from the spec: it carries the kind
of resolution, the winner when the kind is a win, and an opaque
termination-reason code (the `valanga.OverEvent` class is external to this
repository).  A freshly constructed record is not over. -/
structure OverEvent where
  howOver : OverTag := OverTag.notOver
  whoIsWinner : Option Color := none
  termination : Option Nat := none
deriving DecidableEq, Repr

/-- Modelled from the spec: an over event is over when its tag is not `none`. -/
def OverEvent.isOver (e : OverEvent) : Bool :=
  e.howOver != OverTag.notOver

/-- Modelled from the spec: an over event is a win when its tag is `win`. -/
def OverEvent.isWin (e : OverEvent) : Bool :=
  e.howOver == OverTag.win

/-- Modelled from the spec: a player is the winner when the event is a win
whose recorded winner is that player. -/
def OverEvent.isWinner (e : OverEvent) (player : Color) : Bool :=
  e.isWin && e.whoIsWinner == some player

/-- Modelled from the spec: `becomes_over` overwrites the three fields of the
record with the given values. -/
def OverEvent.becomesOver (_ : OverEvent) (howOver : OverTag)
    (whoIsWinner : Option Color) (termination : Option Nat) : OverEvent :=
  { howOver := howOver, whoIsWinner := whoIsWinner, termination := termination }

/-- Assignment `d[k] = v` on a CPython dictionary viewed as an
insertion-ordered association list: an existing key keeps its position and
gets the new value, a fresh key is appended at the end. -/
def dictSet {V : Type} (l : List (Nat × V)) (k : Nat) (v : V) : List (Nat × V) :=
  match l with
  | [] => [(k, v)]
  | (k0, v0) :: rest =>
      if k0 = k then (k, v) :: rest else (k0, v0) :: dictSet rest k v

/-- Entries of `branches_sorted_by_value`: the Python 3-tuple
`(subjective value, signed best-branch-sequence length, child id)` of
`record_sort_value_of_child`. -/
abbrev SortValue : Type := Rat × Int × Nat

/-- Python tuple comparison `a < b`: lexicographic strict order on the
3-tuples stored in `branches_sorted_by_value`. -/
def svLt (a b : SortValue) : Bool :=
  decide (a.1 < b.1) ||
    (decide (a.1 = b.1) &&
      (decide (a.2.1 < b.2.1) ||
        (decide (a.2.1 = b.2.1) && decide (a.2.2 < b.2.2))))

/-- Python tuple comparison `a <= b`, written as the negation of `b < a`
(the orders on floats-as-rationals, ints and ids are linear). -/
def svLe (a b : SortValue) : Bool :=
  !(svLt b a)

theorem svLt_asymm (a b : SortValue) (h : svLt a b = true) : svLt b a = false := by
  rcases a with ⟨a1, a2, a3⟩
  rcases b with ⟨b1, b2, b3⟩
  unfold svLt at h ⊢
  simp only [Bool.or_eq_true, Bool.and_eq_true, decide_eq_true_eq] at h
  simp only [Bool.or_eq_false_iff, Bool.and_eq_false_iff, decide_eq_false_iff_not, not_lt]
  rcases h with h1 | ⟨h1, h2 | ⟨h2, h3⟩⟩
  · exact ⟨le_of_lt h1, Or.inl (ne_of_gt h1)⟩
  · exact ⟨le_of_eq h1, Or.inr ⟨le_of_lt h2, Or.inl (ne_of_gt h2)⟩⟩
  · exact ⟨le_of_eq h1, Or.inr ⟨le_of_eq h2, Or.inr (le_of_lt h3)⟩⟩

theorem svLe_of_svLt_eq_false {a b : SortValue} (h : svLt b a = false) :
    svLe a b = true := by
  unfold svLe
  simp [h]

/-- One step of the stable ascending sort of `sort_dic`
(`utils/my_value_sorted_dict.py`): insert an entry into an already sorted
list, going past every entry whose value is strictly smaller, so that ties
keep their original relative order (Python `sorted` is stable). -/
def insertEntry (x : Nat × SortValue) : List (Nat × SortValue) → List (Nat × SortValue)
  | [] => [x]
  | y :: ys => if svLt y.2 x.2 then y :: insertEntry x ys else x :: y :: ys

/-- The helper `sort_dic` of `utils/my_value_sorted_dict.py`: sorts a
dictionary in ascending order of its values (stable, comparing only the
value component, as `sorted(dic.items(), key=lambda item: item[1])`). -/
def sortDic (l : List (Nat × SortValue)) : List (Nat × SortValue) :=
  l.foldr insertEntry []

theorem insertEntry_perm (x : Nat × SortValue) (l : List (Nat × SortValue)) :
    List.Perm (insertEntry x l) (x :: l) := by
  induction l with
  | nil => simp [insertEntry]
  | cons y ys ih =>
      rw [insertEntry]
      by_cases h : svLt y.2 x.2 = true
      · rw [if_pos h]
        exact ((ih.cons y).trans (List.Perm.swap x y ys))
      · rw [if_neg h]

theorem sortDic_perm (l : List (Nat × SortValue)) : List.Perm (sortDic l) l := by
  induction l with
  | nil => simp [sortDic]
  | cons x xs ih =>
      unfold sortDic
      simp only [List.foldr_cons]
      exact (insertEntry_perm x (List.foldr insertEntry [] xs)).trans (ih.cons x)

theorem insertEntry_sorted (x : Nat × SortValue) (l : List (Nat × SortValue))
    (h : List.Chain' (fun p q => svLe p.2 q.2 = true) l) :
    List.Chain' (fun p q => svLe p.2 q.2 = true) (insertEntry x l) := by
  induction l with
  | nil => simp [insertEntry]
  | cons y ys ih =>
      rw [insertEntry]
      by_cases hlt : svLt y.2 x.2 = true
      · rw [if_pos hlt]
        rcases List.chain'_cons'.mp h with ⟨hhead, hys⟩
        apply List.Chain'.cons' (ih hys)
        intro z hz
        cases ys with
        | nil =>
            simp only [insertEntry, List.head?_cons, Option.mem_def, Option.some_inj] at hz
            subst hz
            exact svLe_of_svLt_eq_false (svLt_asymm _ _ hlt)
        | cons w ws =>
            rw [insertEntry] at hz
            by_cases hw : svLt w.2 x.2 = true
            · rw [if_pos hw] at hz
              simp only [List.head?_cons, Option.mem_def, Option.some_inj] at hz
              subst hz
              exact hhead w rfl
            · rw [if_neg hw] at hz
              simp only [List.head?_cons, Option.mem_def, Option.some_inj] at hz
              subst hz
              exact svLe_of_svLt_eq_false (svLt_asymm _ _ hlt)
      · rw [if_neg hlt]
        apply List.Chain'.cons' h
        intro z hz
        simp only [List.head?_cons, Option.mem_def, Option.some_inj] at hz
        subst hz
        exact svLe_of_svLt_eq_false (Bool.of_not_eq_true hlt)

theorem sortDic_sorted (l : List (Nat × SortValue)) :
    List.Chain' (fun p q => svLe p.2 q.2 = true) (sortDic l) := by
  induction l with
  | nil => simp [sortDic]
  | cons x xs ih =>
      unfold sortDic
      simp only [List.foldr_cons]
      exact insertEntry_sorted x _ ih

/-!
Per-node minimax bookkeeping
(`node_evaluation/node_tree_evaluation/node_minmax_evaluation.py`).

The operations under verification read a child node only through
`child.tree_evaluation.get_value_white()`, `child.tree_evaluation.best_branch_sequence`,
`child.tree_evaluation.over_event` / `child.is_over()` and `child.tree_node.id`,
so a child is embedded as the record of those four observables.
-/

/-- Observable part of a child `AlgorithmNode` as used by the parent
operations of `NodeMinmaxEvaluation`: its node id (`tree_node.id`), its
`value_white_minmax`, its `best_branch_sequence` and its `over_event`. -/
structure ChildNode where
  id : Nat
  valueWhiteMinmax : Option Rat
  bestBranchSequence : List Nat
  overEvent : OverEvent
deriving DecidableEq, Repr

/-- State of one `NodeMinmaxEvaluation` (class `NodeMinmaxEvaluation` of
`node_minmax_evaluation.py`) together with the fields of the wrapped
`TreeNode` that its methods read: `state.turn`, `all_branches_generated`
and `branches_children`. -/
structure MinmaxEval where
  turn : Color
  allBranchesGenerated : Bool
  branchesChildren : List (Nat × Option ChildNode)
  valueWhiteDirectEvaluation : Option Rat
  valueWhiteMinmax : Option Rat
  bestBranchSequence : List Nat
  branchesSortedByValue : List (Nat × SortValue)
  branchesNotOver : List Nat
  overEvent : OverEvent
deriving DecidableEq, Repr

/-- Lookup `self.tree_node.branches_children[branch_key]` followed by
`assert child is not None` (pattern used by the `NodeMinmaxEvaluation`
methods); a missing key raises `KeyError`. -/
def getChild (e : MinmaxEval) (branchKey : Nat) : Except String ChildNode :=
  match e.branchesChildren.lookup branchKey with
  | none => .error "KeyError: branches_children"
  | some none => .error "assert child is not None"
  | some (some c) => .ok c

/-- Method `get_value_white` on a child evaluation: asserts that
`value_white_minmax` is set and returns it. -/
def ChildNode.getValueWhite (c : ChildNode) : Except String Rat :=
  match c.valueWhiteMinmax with
  | some v => .ok v
  | none => .error "assert value_white_minmax is not None"

/-- Method `NodeMinmaxEvaluation.get_value_white`: asserts that
`value_white_minmax` is set and returns it. -/
def MinmaxEval.getValueWhite (e : MinmaxEval) : Except String Rat :=
  match e.valueWhiteMinmax with
  | some v => .ok v
  | none => .error "assert value_white_minmax is not None"

/-- Method `NodeMinmaxEvaluation.is_over`. -/
def MinmaxEval.isOver (e : MinmaxEval) : Bool :=
  e.overEvent.isOver

/-- Method `NodeMinmaxEvaluation.best_branch`: first key of the
`branches_sorted_by_value` dictionary, or `None` when it is empty. -/
def bestBranch (e : MinmaxEval) : Option Nat :=
  e.branchesSortedByValue.head?.map Prod.fst

/-- Method `NodeMinmaxEvaluation.best_branch_value`: first value of the
`branches_sorted_by_value` dictionary, or `None` when it is empty. -/
def bestBranchValue (e : MinmaxEval) : Option SortValue :=
  e.branchesSortedByValue.head?.map Prod.snd

/-- Method `NodeMinmaxEvaluation.record_sort_value_of_child`
(lines 385-421 of `node_minmax_evaluation.py`): store in
`branches_sorted_by_value` the 3-tuple for the child at `branch_key`,
negating the child white value when the parent side to move is WHITE, and
signing the best-branch-sequence length negatively when the parent is
already over. -/
def recordSortValueOfChild (e : MinmaxEval) (branchKey : Nat) : Except String MinmaxEval := do
  let child ← getChild e branchKey
  let childValueWhite ← child.getValueWhite
  let subjectiveValueOfChild : Rat :=
    if e.turn = Color.WHITE then -childValueWhite else childValueWhite
  if e.isOver then
    .ok { e with branchesSortedByValue :=
      (dictSet e.branchesSortedByValue branchKey
        (subjectiveValueOfChild, -(child.bestBranchSequence.length : Int), child.id)) }
  else
    .ok { e with branchesSortedByValue :=
      (dictSet e.branchesSortedByValue branchKey
        (subjectiveValueOfChild, (child.bestBranchSequence.length : Int), child.id)) }

/-- Python `for branch_key in branches_to_consider: record_sort_value_of_child`,
iterating the set in the given order. -/
def recordAll (e : MinmaxEval) : List Nat → Except String MinmaxEval
  | [] => .ok e
  | k :: ks => do
      let e1 ← recordSortValueOfChild e k
      recordAll e1 ks

/-- Method `NodeMinmaxEvaluation.update_branches_values`
(lines 534-546 of `node_minmax_evaluation.py`): re-record the sort value of
every branch to consider, then re-sort the dictionary ascending with
`sort_dic`. -/
def updateBranchesValues (e : MinmaxEval) (branchesToConsider : List Nat) :
    Except String MinmaxEval := do
  let e1 ← recordAll e branchesToConsider
  .ok { e1 with branchesSortedByValue := sortDic e1.branchesSortedByValue }

/-- Method `NodeMinmaxEvaluation.update_value_minmax`
(lines 563-593 of `node_minmax_evaluation.py`). -/
def updateValueMinmax (e : MinmaxEval) : Except String MinmaxEval :=
  match bestBranch e with
  | none => .error "assert best_branch_key is not None"
  | some bestBranchKey => do
      let bestChild ← getChild e bestBranchKey
      let v ← bestChild.getValueWhite
      if e.allBranchesGenerated then
        .ok { e with valueWhiteMinmax := some v }
      else if e.turn = Color.WHITE then
        match e.valueWhiteDirectEvaluation with
        | none => .error "assert value_white_direct_evaluation is not None"
        | some d => .ok { e with valueWhiteMinmax := some (max v d) }
      else
        match e.valueWhiteDirectEvaluation with
        | none => .error "assert value_white_direct_evaluation is not None"
        | some d => .ok { e with valueWhiteMinmax := some (min v d) }

/-- Method `NodeMinmaxEvaluation.becoming_over_from_children`
(lines 465-493 of `node_minmax_evaluation.py`): assert the node is not yet
over, re-record the sort value of every child, then copy the over-event
fields of the child at the head of `branches_sorted_by_value`. -/
def becomingOverFromChildren (e : MinmaxEval) : Except String MinmaxEval := do
  if e.isOver then .error "assert not self.is_over()" else
  let e1 ← recordAll e (e.branchesChildren.map Prod.fst)
  match bestBranch e1 with
  | none => .error "assert best_branch_key is not None"
  | some bestBranchKey => do
      let bestChild ← getChild e1 bestBranchKey
      .ok { e1 with overEvent :=
        (e1.overEvent.becomesOver bestChild.overEvent.howOver
          bestChild.overEvent.whoIsWinner bestChild.overEvent.termination) }

/-- Loop body of `NodeMinmaxEvaluation.update_over`
(lines 507-525 of `node_minmax_evaluation.py`), iterating
`branches_with_updated_over` in the given order: assert the child at each
branch is over, remove the branch from `branches_not_over`, and become over
through `becoming_over_from_children` the first time a child that is a win
for the side to move is seen while the node is not yet over. -/
def updateOverLoop (e : MinmaxEval) (isNewlyOver : Bool) :
    List Nat → Except String (MinmaxEval × Bool)
  | [] => .ok (e, isNewlyOver)
  | k :: ks => do
      let child ← getChild e k
      if child.overEvent.isOver = false then .error "assert child.is_over()" else do
        let e1 := { e with branchesNotOver := e.branchesNotOver.erase k }
        if (!e1.isOver) && child.overEvent.isWinner e1.turn then do
          let e2 ← becomingOverFromChildren e1
          updateOverLoop e2 true ks
        else
          updateOverLoop e1 isNewlyOver ks

/-- Method `NodeMinmaxEvaluation.update_over`
(lines 495-532 of `node_minmax_evaluation.py`): the loop over the notified
branches followed by the final check `if not self.is_over() and not
self.branches_not_over: becoming_over_from_children()`. -/
def updateOver (e : MinmaxEval) (branchesWithUpdatedOver : List Nat) :
    Except String (MinmaxEval × Bool) := do
  let r ← updateOverLoop e false branchesWithUpdatedOver
  let e1 := r.1
  if (!e1.isOver) && decide (e1.branchesNotOver = []) then do
    let e2 ← becomingOverFromChildren e1
    .ok (e2, true)
  else
    .ok (e1, r.2)

/-- Method `NodeMinmaxEvaluation.is_value_subjectively_better_than_evaluation`
(lines 652-664 of `node_minmax_evaluation.py`): the subjective view of the
given white value is at least `value_white_direct_evaluation` (asserted set). -/
def isValueSubjectivelyBetterThanEvaluation (e : MinmaxEval) (valueWhite : Rat) :
    Except String Bool :=
  let subjectiveValue : Rat := if e.turn = Color.WHITE then valueWhite else -valueWhite
  match e.valueWhiteDirectEvaluation with
  | none => .error "assert value_white_direct_evaluation is not None"
  | some d => .ok (decide (subjectiveValue ≥ d))

/-- Net behaviour of `NodeMinmaxEvaluation.get_all_of_the_best_branches`
with `how_equal = "equal"` (lines 832-858 of `node_minmax_evaluation.py`):
collect the branches whose stored 3-tuple equals the head tuple; the inner
`assert len(best_branches) == 1` fails as soon as a second equal branch is
appended, so the call succeeds exactly when the collection is a singleton. -/
def getAllOfTheBestBranchesEqual (e : MinmaxEval) : Except String (List Nat) :=
  match e.branchesSortedByValue.head? with
  | none => .error "assert best_branch is not None"
  | some headEntry =>
      let best := (e.branchesSortedByValue.filter
        (fun p => decide (p.2 = headEntry.2))).map Prod.fst
      if best.length = 1 then .ok best else .error "assert len(best_branches) == 1"

/-- Method `NodeMinmaxEvaluation.one_of_best_children_becomes_best_next_node`
(lines 625-650 of `node_minmax_evaluation.py`): with `how_equal = "equal"`
the set of tied best branches is asserted to be a singleton, so the call to
`random.choice` deterministically returns its only element; the
best-branch sequence becomes that branch followed by its child sequence. -/
def oneOfBestChildrenBecomesBestNextNode (e : MinmaxEval) : Except String MinmaxEval := do
  let best ← getAllOfTheBestBranchesEqual e
  match best.head? with
  | none => .error "IndexError: choice from empty sequence"
  | some bestBranchKey => do
      let bestChild ← getChild e bestBranchKey
      .ok { e with bestBranchSequence := bestBranchKey :: bestChild.bestBranchSequence }

/-- Method `NodeMinmaxEvaluation.minmax_value_update_from_children`
(lines 666-737 of `node_minmax_evaluation.py`). -/
def minmaxValueUpdateFromChildren (e : MinmaxEval) (branchesWithUpdatedValue : List Nat) :
    Except String (MinmaxEval × Bool × Bool) := do
  let valueWhiteBeforeUpdate ← e.getValueWhite
  let bestBranchKeyBeforeUpdate := bestBranch e
  let e1 ← updateBranchesValues e branchesWithUpdatedValue
  let e2 ← updateValueMinmax e1
  let valueWhiteAfterUpdate ← e2.getValueWhite
  let hasValueChanged := decide (valueWhiteBeforeUpdate ≠ valueWhiteAfterUpdate)
  let bestChildBeforeUpdateNotTheBestAnymore ←
    match bestBranchKeyBeforeUpdate with
    | none => pure true
    | some k =>
        match e2.branchesSortedByValue.lookup k with
        | none => Except.error "KeyError: branches_sorted_by_value"
        | some updatedValueOfBestChildBeforeUpdate =>
            match bestBranchValue e2 with
            | none => pure true
            | some bestValueChildrenAfter =>
                pure (decide (updatedValueOfBestChildBeforeUpdate ≠ bestValueChildrenAfter))
  let bestBranchSeqBeforeUpdate := e2.bestBranchSequence
  let e3 ←
    if e2.allBranchesGenerated then
      if bestChildBeforeUpdateNotTheBestAnymore then
        oneOfBestChildrenBecomesBestNextNode e2
      else pure e2
    else
      match bestBranchKeyBeforeUpdate with
      | none => Except.error "assert best_branch_key_before_update is not None"
      | some k0 => do
          let bestChildBeforeUpdate ← getChild e2 k0
          let v0 ← bestChildBeforeUpdate.getValueWhite
          let better ← isValueSubjectivelyBetterThanEvaluation e2 v0
          if better then oneOfBestChildrenBecomesBestNextNode e2
          else pure { e2 with bestBranchSequence := [] }
  let bestBranchSeqAfterUpdate := e3.bestBranchSequence
  .ok (e3, hasValueChanged, decide (bestBranchSeqBeforeUpdate ≠ bestBranchSeqAfterUpdate))

@[simp]
theorem exceptBindOk {α β : Type} (a : α) (f : α → Except String β) :
    (Except.ok a >>= f) = f a := rfl

@[simp]
theorem exceptBindErr {α β : Type} (msg : String) (f : α → Except String β) :
    ((Except.error msg : Except String α) >>= f) = Except.error msg := rfl

@[simp]
theorem exceptMapOk {α β : Type} (a : α) (f : α → β) :
    (Except.ok a : Except String α).map f = Except.ok (f a) := rfl

@[simp]
theorem exceptPureBind {α β : Type} (a : α) (f : α → Except String β) :
    ((pure a : Except String α) >>= f) = f a := rfl

theorem recordSortValueOfChild_fields {e r : MinmaxEval} {k : Nat}
    (h : recordSortValueOfChild e k = .ok r) :
    r.turn = e.turn ∧ r.allBranchesGenerated = e.allBranchesGenerated ∧
    r.branchesChildren = e.branchesChildren ∧
    r.valueWhiteDirectEvaluation = e.valueWhiteDirectEvaluation ∧
    r.valueWhiteMinmax = e.valueWhiteMinmax ∧
    r.bestBranchSequence = e.bestBranchSequence ∧
    r.branchesNotOver = e.branchesNotOver ∧
    r.overEvent = e.overEvent := by
  unfold recordSortValueOfChild getChild ChildNode.getValueWhite at h
  cases hl : e.branchesChildren.lookup k with
  | none => simp [hl] at h
  | some oc =>
      cases oc with
      | none => simp [hl] at h
      | some c =>
          cases hv : c.valueWhiteMinmax with
          | none => simp [hl, hv] at h
          | some v =>
              simp only [hl, hv, exceptBindOk] at h
              by_cases ho : e.isOver = true
              · rw [if_pos ho] at h
                simp only [Except.ok.injEq] at h
                subst h
                simp
              · rw [if_neg ho] at h
                simp only [Except.ok.injEq] at h
                subst h
                simp

theorem recordAll_fields {U : List Nat} :
    ∀ {e r : MinmaxEval}, recordAll e U = .ok r →
    r.turn = e.turn ∧ r.allBranchesGenerated = e.allBranchesGenerated ∧
    r.branchesChildren = e.branchesChildren ∧
    r.valueWhiteDirectEvaluation = e.valueWhiteDirectEvaluation ∧
    r.valueWhiteMinmax = e.valueWhiteMinmax ∧
    r.bestBranchSequence = e.bestBranchSequence ∧
    r.branchesNotOver = e.branchesNotOver ∧
    r.overEvent = e.overEvent := by
  induction U with
  | nil =>
      intro e r h
      unfold recordAll at h
      simp only [Except.ok.injEq] at h
      subst h
      simp
  | cons k ks ih =>
      intro e r h
      unfold recordAll at h
      cases h1 : recordSortValueOfChild e k with
      | error msg => simp [h1] at h
      | ok e1 =>
          simp only [h1, exceptBindOk] at h
          obtain ⟨a1, a2, a3, a4, a5, a6, a7, a8⟩ := recordSortValueOfChild_fields h1
          obtain ⟨b1, b2, b3, b4, b5, b6, b7, b8⟩ := ih h
          exact ⟨b1.trans a1, b2.trans a2, b3.trans a3, b4.trans a4, b5.trans a5,
            b6.trans a6, b7.trans a7, b8.trans a8⟩

/-- C1: for every node whose `branches_sorted_by_value` is non-empty (head
entry `(k, sv)` with an existing child `c` whose white value is `v`),
`update_value_minmax` sets `value_white_minmax` to `v` when
`all_branches_generated` is true; otherwise, assuming
`value_white_direct_evaluation` is set to `d`, it sets `value_white_minmax`
to `max v d` when the side to move is WHITE and to `min v d` when it is
BLACK. -/
theorem c1_updateValueMinmax (e : MinmaxEval) (k : Nat) (sv : SortValue)
    (c : ChildNode) (v : Rat)
    (hhead : e.branchesSortedByValue.head? = some (k, sv))
    (hchild : e.branchesChildren.lookup k = some (some c))
    (hv : c.valueWhiteMinmax = some v) :
    (e.allBranchesGenerated = true →
      updateValueMinmax e = .ok { e with valueWhiteMinmax := some v }) ∧
    (∀ d : Rat, e.allBranchesGenerated = false → e.valueWhiteDirectEvaluation = some d →
      updateValueMinmax e = .ok { e with valueWhiteMinmax := (some
        (if e.turn = Color.WHITE then max v d else min v d)) }) := by
  have hbb : bestBranch e = some k := by
    unfold bestBranch
    rw [hhead]
    rfl
  unfold updateValueMinmax getChild ChildNode.getValueWhite
  rw [hbb]
  simp only [hchild, hv, exceptBindOk]
  constructor
  · intro hgen
    simp [hgen]
  · intro d hgen hdir
    by_cases ht : e.turn = Color.WHITE
    · simp [hgen, ht, hdir]
    · simp [hgen, ht, hdir]

/-- Concrete child used by the witness of C1. -/
def c1child : ChildNode :=
  { id := 5, valueWhiteMinmax := some 2, bestBranchSequence := [7], overEvent := {} }

/-- Concrete node used by the witness of C1: BLACK to move, branches not all
generated, direct evaluation 1, one opened child of white value 2. -/
def c1ex : MinmaxEval :=
  { turn := Color.BLACK
    allBranchesGenerated := false
    branchesChildren := [(3, some c1child)]
    valueWhiteDirectEvaluation := some 1
    valueWhiteMinmax := some 1
    bestBranchSequence := []
    branchesSortedByValue := [(3, (2, 1, 5))]
    branchesNotOver := [3]
    overEvent := {} }

/-- Witness for C1: on the concrete node `c1ex` (BLACK to move, unopened
branches remaining) `update_value_minmax` stores `min 2 1`. -/
theorem c1_witness :
    updateValueMinmax c1ex = Except.ok { c1ex with valueWhiteMinmax := some (min (2 : Rat) 1) } :=
  (c1_updateValueMinmax c1ex 3 (2, 1, 5) c1child 2 rfl rfl rfl).2 1 rfl rfl

/-- True when some branch of `U` links to an existing child whose over event
is a win for the side to move of `e` (the trigger of case 1 of
`update_over`). -/
def anyWinner (e : MinmaxEval) (U : List Nat) : Bool :=
  U.any (fun k =>
    match e.branchesChildren.lookup k with
    | some (some c) => c.overEvent.isWinner e.turn
    | _ => false)

theorem becomingOver_fields {e r : MinmaxEval}
    (h : becomingOverFromChildren e = .ok r) :
    r.turn = e.turn ∧ r.allBranchesGenerated = e.allBranchesGenerated ∧
    r.branchesChildren = e.branchesChildren ∧
    r.valueWhiteDirectEvaluation = e.valueWhiteDirectEvaluation ∧
    r.valueWhiteMinmax = e.valueWhiteMinmax ∧
    r.bestBranchSequence = e.bestBranchSequence ∧
    r.branchesNotOver = e.branchesNotOver := by
  unfold becomingOverFromChildren at h
  by_cases ho : e.isOver = true
  · rw [if_pos ho] at h
    exact absurd h (by simp)
  · rw [if_neg ho] at h
    cases hrec : recordAll e (e.branchesChildren.map Prod.fst) with
    | error msg => rw [hrec] at h; exact absurd h (by simp)
    | ok e1 =>
        rw [hrec] at h
        simp only [exceptBindOk] at h
        obtain ⟨a1, a2, a3, a4, a5, a6, a7, _⟩ := recordAll_fields hrec
        cases hbb : bestBranch e1 with
        | none => rw [hbb] at h; exact absurd h (by simp)
        | some bk =>
            rw [hbb] at h
            dsimp only at h
            cases hgc : getChild e1 bk with
            | error msg => rw [hgc] at h; exact absurd h (by simp)
            | ok bc =>
                rw [hgc] at h
                simp only [exceptBindOk, Except.ok.injEq] at h
                subst h
                exact ⟨a1, a2, a3, a4, a5, a6, a7⟩

theorem erase_eq_filter_ne (l : List Nat) (k : Nat) (h : l.Nodup) :
    l.erase k = l.filter (fun x => decide (x ≠ k)) := by
  induction l with
  | nil => rfl
  | cons a as ih =>
      rcases List.nodup_cons.mp h with ⟨hnotmem, hnd⟩
      by_cases hak : a = k
      · subst hak
        rw [List.erase_cons_head, List.filter_cons]
        rw [if_neg (by simp)]
        exact (List.filter_eq_self.mpr (fun x hx => by
          simp only [decide_eq_true_eq]
          exact fun hxa => hnotmem (hxa ▸ hx))).symm
      · rw [List.erase_cons_tail (by simp [hak])]
        simp only [List.filter_cons]
        rw [if_pos (by simp [hak])]
        rw [ih hnd]

theorem filter_notContains_cons (l : List Nat) (k : Nat) (ks : List Nat) (h : l.Nodup) :
    (l.erase k).filter (fun x => !(ks.contains x)) =
      l.filter (fun x => !((k :: ks).contains x)) := by
  rw [erase_eq_filter_ne l k h, List.filter_filter]
  apply List.filter_congr
  intro x _
  by_cases hxk : x = k
  · simp [hxk]
  · simp [hxk]

theorem updateOverLoop_spec (U : List Nat) :
    ∀ (e : MinmaxEval) (b : Bool) (r : MinmaxEval × Bool),
    e.branchesNotOver.Nodup → U.Nodup →
    updateOverLoop e b U = .ok r →
    r.1.branchesChildren = e.branchesChildren ∧
    r.1.turn = e.turn ∧
    r.1.branchesNotOver = e.branchesNotOver.filter (fun x => !(U.contains x)) ∧
    r.2 = (b || ((!e.isOver) && anyWinner e U)) ∧
    (r.1.overEvent = e.overEvent ∨ r.2 = true) := by
  induction U with
  | nil =>
      intro e b r _ _ h
      unfold updateOverLoop at h
      simp only [Except.ok.injEq] at h
      subst h
      refine ⟨rfl, rfl, ?_, by simp [anyWinner], Or.inl rfl⟩
      simp
  | cons k ks ih =>
      intro e b r hnod hU h
      unfold updateOverLoop at h
      cases hgc : getChild e k with
      | error msg => rw [hgc] at h; exact absurd h (by simp)
      | ok child =>
          rw [hgc] at h
          simp only [exceptBindOk] at h
          by_cases hover : child.overEvent.isOver = false
          · rw [if_pos hover] at h
            exact absurd h (by simp)
          · rw [if_neg hover] at h
            have hwink : (match e.branchesChildren.lookup k with
                | some (some c) => c.overEvent.isWinner e.turn
                | _ => false) = child.overEvent.isWinner e.turn := by
              unfold getChild at hgc
              cases hl : e.branchesChildren.lookup k with
              | none => rw [hl] at hgc; exact absurd hgc (by simp)
              | some oc =>
                  cases oc with
                  | none => rw [hl] at hgc; exact absurd hgc (by simp)
                  | some c =>
                      rw [hl] at hgc
                      simp only [Except.ok.injEq] at hgc
                      subst hgc
                      rfl
            set e1 : MinmaxEval := { e with branchesNotOver := e.branchesNotOver.erase k }
              with he1
            have hnod1 : e1.branchesNotOver.Nodup := hnod.erase k
            have he1iso : e1.isOver = e.isOver := rfl
            have he1turn : e1.turn = e.turn := rfl
            have he1bc : e1.branchesChildren = e.branchesChildren := rfl
            have he1ov : e1.overEvent = e.overEvent := rfl
            have he1bno : e1.branchesNotOver = e.branchesNotOver.erase k := rfl
            by_cases htrig : ((!e1.isOver) && child.overEvent.isWinner e1.turn) = true
            · rw [if_pos htrig] at h
              cases hbo : becomingOverFromChildren e1 with
              | error msg => rw [hbo] at h; exact absurd h (by simp)
              | ok e2 =>
                  rw [hbo] at h
                  simp only [exceptBindOk] at h
                  obtain ⟨g1, g2, g3, g4, g5, g6, g7⟩ := becomingOver_fields hbo
                  have hnod2 : e2.branchesNotOver.Nodup := by
                    rw [g7]
                    exact hnod1
                  obtain ⟨i1, i2, i3, i4, i5⟩ := ih e2 true r hnod2 hU.of_cons h
                  rw [he1iso, he1turn] at htrig
                  refine ⟨by rw [i1, g3, he1bc], by rw [i2, g1, he1turn], ?_, ?_, ?_⟩
                  · rw [i3, g7, he1bno]
                    exact filter_notContains_cons e.branchesNotOver k ks hnod
                  · have hr2 : r.2 = true := by simp [i4]
                    rw [hr2]
                    simp only [Bool.and_eq_true] at htrig
                    have haw : anyWinner e (k :: ks) = true := by
                      unfold anyWinner
                      simp only [List.any_cons, Bool.or_eq_true]
                      exact Or.inl (hwink.trans htrig.2)
                    rw [haw, htrig.1]
                    simp
                  · exact Or.inr (by simp [i4])
            · rw [if_neg htrig] at h
              obtain ⟨i1, i2, i3, i4, i5⟩ := ih e1 b r hnod1 hU.of_cons h
              have hawksEq : anyWinner e1 ks = anyWinner e ks := rfl
              rw [he1iso, he1turn] at htrig
              refine ⟨by rw [i1, he1bc], by rw [i2, he1turn], ?_, ?_, ?_⟩
              · rw [i3, he1bno]
                exact filter_notContains_cons e.branchesNotOver k ks hnod
              · rw [i4, hawksEq, he1iso]
                have haw : anyWinner e (k :: ks) =
                    (child.overEvent.isWinner e.turn || anyWinner e ks) := by
                  unfold anyWinner
                  simp only [List.any_cons]
                  rw [hwink]
                rw [haw]
                rcases Bool.and_eq_false_iff.mp (Bool.not_eq_true _ |>.mp htrig) with hov | hwin
                · have hiot : e.isOver = true := by
                    cases hio : e.isOver
                    · rw [hio] at hov; simp at hov
                    · rfl
                  rw [hiot]
                  simp
                · rw [hwin]
                  simp
              · rcases i5 with heq | htr
                · exact Or.inl (heq.trans he1ov)
                · exact Or.inr htr

/-- C2 amended: for a parent node with duplicate-free `branches_not_over`
and a duplicate-free notification set `U` whose branches all link to over
children (otherwise the call fails an assert), a successful
`update_over(U)` removes each branch of `U` from `branches_not_over`, and
returns newly-over `true` exactly when the parent was not already over and
either some child of a branch of `U` is a win for the parent's side to
move, or `branches_not_over` is empty after the removals —
`all_branches_generated` is not consulted. -/
theorem c2_updateOver (e : MinmaxEval) (U : List Nat) (r : MinmaxEval) (newly : Bool)
    (hnod : e.branchesNotOver.Nodup) (hU : U.Nodup)
    (h : updateOver e U = .ok (r, newly)) :
    r.branchesNotOver = e.branchesNotOver.filter (fun x => !(U.contains x)) ∧
    newly = ((!e.isOver) && (anyWinner e U || decide (r.branchesNotOver = []))) := by
  unfold updateOver at h
  cases hloop : updateOverLoop e false U with
  | error msg => rw [hloop] at h; exact absurd h (by simp)
  | ok p =>
      rw [hloop] at h
      simp only [exceptBindOk] at h
      obtain ⟨l1, l2, l3, l4, l5⟩ := updateOverLoop_spec U e false p hnod hU hloop
      by_cases hcond : ((!p.1.isOver) && decide (p.1.branchesNotOver = [])) = true
      · rw [if_pos hcond] at h
        cases hbo : becomingOverFromChildren p.1 with
        | error msg => rw [hbo] at h; exact absurd h (by simp)
        | ok e2 =>
            rw [hbo] at h
            simp only [exceptBindOk, Except.ok.injEq, Prod.mk.injEq] at h
            obtain ⟨hre, hnewly⟩ := h
            subst hre
            subst hnewly
            obtain ⟨_, _, _, _, _, _, g7⟩ := becomingOver_fields hbo
            simp only [Bool.and_eq_true, Bool.not_eq_true', decide_eq_true_eq] at hcond
            refine ⟨by rw [g7]; exact l3, ?_⟩
            have hempty : decide (e2.branchesNotOver = []) = true := by
              rw [g7, hcond.2]
              simp
            rcases l5 with hsame | htrue
            · have hio : e.isOver = false := by
                unfold MinmaxEval.isOver at hcond ⊢
                rw [← hsame]
                exact hcond.1
              rw [hio, hempty]
              simp
            · rw [l4] at htrue
              simp only [Bool.false_or, Bool.and_eq_true] at htrue
              rw [htrue.1, hempty]
              simp
      · rw [if_neg hcond] at h
        simp only [Except.ok.injEq, Prod.mk.injEq] at h
        obtain ⟨hre, hnewly⟩ := h
        subst hre
        subst hnewly
        refine ⟨l3, ?_⟩
        rw [l4]
        simp only [Bool.false_or]
        cases hio : e.isOver with
        | true => simp
        | false =>
            simp only [Bool.not_true, Bool.not_false, Bool.true_and, Bool.false_and]
            rcases l5 with hsame | htrue
            · have hpio : p.1.isOver = false := by
                unfold MinmaxEval.isOver at hio ⊢
                rw [hsame]
                exact hio
              have hne : decide (p.1.branchesNotOver = []) = false := by
                rcases Bool.and_eq_false_iff.mp (Bool.not_eq_true _ |>.mp hcond) with hh | hh
                · rw [hpio] at hh; simp at hh
                · exact hh
              rw [hne]
              simp
            · rw [l4] at htrue
              simp only [Bool.false_or, Bool.and_eq_true] at htrue
              rw [htrue.2]
              simp

/-- Over event of a drawn terminal child, used by the C2 scenario. -/
def c2draw : OverEvent :=
  { howOver := OverTag.draw, whoIsWinner := none, termination := some 1 }

/-- Terminal drawn child number 10 of the C2 scenario. -/
def c2child0 : ChildNode :=
  { id := 10, valueWhiteMinmax := some 0, bestBranchSequence := [], overEvent := c2draw }

/-- Terminal drawn child number 11 of the C2 scenario. -/
def c2child1 : ChildNode :=
  { id := 11, valueWhiteMinmax := some 0, bestBranchSequence := [], overEvent := c2draw }

/-- C2 scenario: parent WHITE to move, `all_branches_generated` still false,
two opened children both drawn (no win for WHITE), `branches_not_over`
reduced to the single branch 0. -/
def c2ex : MinmaxEval :=
  { turn := Color.WHITE
    allBranchesGenerated := false
    branchesChildren := [(0, some c2child0), (1, some c2child1)]
    valueWhiteDirectEvaluation := some 0
    valueWhiteMinmax := some 0
    bestBranchSequence := []
    branchesSortedByValue := [(0, (0, 0, 10))]
    branchesNotOver := [0]
    overEvent := {} }

/-- C2 counterexample: the claim states that the parent becomes over only
when some over child wins for the side to move or when `branches_not_over`
is empty AND `all_branches_generated` is true.  On `c2ex`,
`all_branches_generated` is false and no child in the notified set wins for
WHITE, yet `update_over` reports the parent newly over: the code never
consults `all_branches_generated`. -/
theorem c2_counterexample :
    (updateOver c2ex [0]).map Prod.snd = Except.ok true ∧
    c2ex.allBranchesGenerated = false ∧
    anyWinner c2ex [0] = false ∧
    c2ex.isOver = false :=
  ⟨rfl, rfl, rfl, rfl⟩

/-- Result state of the C2 witness run: branch 0 removed from
`branches_not_over`, sort values re-recorded, the drawn over event copied
from the best child. -/
def c2res : MinmaxEval :=
  { c2ex with
      branchesNotOver := []
      branchesSortedByValue := [(0, (0, 0, 10)), (1, (0, 0, 11))]
      overEvent := c2draw }

/-- Witness for C2: the amended characterisation applied to the concrete run
of `update_over` on `c2ex` with notified set `[0]`. -/
theorem c2_witness :
    c2res.branchesNotOver = c2ex.branchesNotOver.filter (fun x => !(([0] : List Nat).contains x)) ∧
    true = ((!c2ex.isOver) && (anyWinner c2ex [0] || decide (c2res.branchesNotOver = []))) :=
  c2_updateOver c2ex [0] c2res true (by decide) (by decide) rfl

/-- The 3-tuple that `record_sort_value_of_child` stores for a child `c` of
white value `v` under a parent `e`: the child white value negated iff the
parent side to move is WHITE, the best-branch-sequence length negated iff
the parent is over, and the child id. -/
def sortTuple (e : MinmaxEval) (c : ChildNode) (v : Rat) : SortValue :=
  (if e.turn = Color.WHITE then -v else v,
   if e.isOver then -(c.bestBranchSequence.length : Int) else (c.bestBranchSequence.length : Int),
   c.id)

theorem dictSet_mem_self {V : Type} (l : List (Nat × V)) (k : Nat) (v : V) :
    (k, v) ∈ dictSet l k v := by
  induction l with
  | nil => simp [dictSet]
  | cons p rest ih =>
      rcases p with ⟨k0, v0⟩
      rw [dictSet]
      by_cases hk : k0 = k
      · rw [if_pos hk]
        exact List.mem_cons_self _ _
      · rw [if_neg hk]
        exact List.mem_cons_of_mem _ ih

theorem dictSet_mem_of_ne {V : Type} {l : List (Nat × V)} {k : Nat} {v : V}
    (k2 : Nat) (v2 : V) (hne : k ≠ k2) (h : (k, v) ∈ l) :
    (k, v) ∈ dictSet l k2 v2 := by
  induction l with
  | nil => cases h
  | cons p rest ih =>
      rcases p with ⟨k0, v0⟩
      rw [dictSet]
      rcases List.mem_cons.mp h with hhead | htail
      · simp only [Prod.mk.injEq] at hhead
        obtain ⟨hk0, hv0⟩ := hhead
        subst hk0
        subst hv0
        rw [if_neg (fun hq : k = k2 => hne hq)]
        exact List.mem_cons_self _ _
      · by_cases hk : k0 = k2
        · rw [if_pos hk]
          exact List.mem_cons_of_mem _ htail
        · rw [if_neg hk]
          exact List.mem_cons_of_mem _ (ih htail)

theorem dictSet_keys {V : Type} (l : List (Nat × V)) (k : Nat) (v : V) :
    (dictSet l k v).map Prod.fst =
      if k ∈ l.map Prod.fst then l.map Prod.fst else l.map Prod.fst ++ [k] := by
  induction l with
  | nil => simp [dictSet]
  | cons p rest ih =>
      rcases p with ⟨k0, v0⟩
      rw [dictSet]
      by_cases hk : k0 = k
      · rw [if_pos hk]
        subst hk
        simp
      · rw [if_neg hk]
        simp only [List.map_cons]
        rw [ih]
        by_cases hmem : k ∈ rest.map Prod.fst
        · rw [if_pos hmem, if_pos (by simp [hmem])]
        · rw [if_neg hmem, if_neg (by simp [hmem, Ne.symm hk]), List.cons_append]

theorem dictSet_keysNodup {V : Type} (l : List (Nat × V)) (k : Nat) (v : V)
    (h : (l.map Prod.fst).Nodup) : ((dictSet l k v).map Prod.fst).Nodup := by
  rw [dictSet_keys]
  by_cases hmem : k ∈ l.map Prod.fst
  · rw [if_pos hmem]
    exact h
  · rw [if_neg hmem]
    simp [List.nodup_append, h, hmem]

theorem recordSortValueOfChild_ok {e r : MinmaxEval} {k : Nat}
    (h : recordSortValueOfChild e k = .ok r) :
    ∃ c v, e.branchesChildren.lookup k = some (some c) ∧ c.valueWhiteMinmax = some v ∧
      r.branchesSortedByValue = dictSet e.branchesSortedByValue k (sortTuple e c v) := by
  unfold recordSortValueOfChild getChild ChildNode.getValueWhite at h
  cases hl : e.branchesChildren.lookup k with
  | none => rw [hl] at h; exact absurd h (by simp)
  | some oc =>
      cases oc with
      | none => rw [hl] at h; exact absurd h (by simp)
      | some c =>
          rw [hl] at h
          dsimp only at h
          simp only [exceptBindOk] at h
          cases hv : c.valueWhiteMinmax with
          | none => rw [hv] at h; simp at h
          | some v =>
              rw [hv] at h
              simp only [exceptBindOk] at h
              refine ⟨c, v, rfl, hv, ?_⟩
              by_cases ho : e.isOver = true
              · rw [if_pos ho] at h
                simp only [Except.ok.injEq] at h
                subst h
                unfold sortTuple
                rw [if_pos ho]
              · rw [if_neg ho] at h
                simp only [Except.ok.injEq] at h
                subst h
                unfold sortTuple
                rw [if_neg ho]

theorem recordAll_spec (U : List Nat) :
    ∀ e r : MinmaxEval, recordAll e U = .ok r →
    (∀ k v0, k ∉ U → (k, v0) ∈ e.branchesSortedByValue → (k, v0) ∈ r.branchesSortedByValue) ∧
    ((e.branchesSortedByValue.map Prod.fst).Nodup → (r.branchesSortedByValue.map Prod.fst).Nodup) ∧
    (U.Nodup → ∀ k ∈ U, ∃ c v, e.branchesChildren.lookup k = some (some c) ∧
      c.valueWhiteMinmax = some v ∧ (k, sortTuple e c v) ∈ r.branchesSortedByValue) := by
  induction U with
  | nil =>
      intro e r h
      unfold recordAll at h
      simp only [Except.ok.injEq] at h
      subst h
      exact ⟨fun _ _ _ hm => hm, fun hn => hn, fun _ k hk => absurd hk (List.not_mem_nil k)⟩
  | cons k ks ih =>
      intro e r h
      unfold recordAll at h
      cases h1 : recordSortValueOfChild e k with
      | error msg => rw [h1] at h; exact absurd h (by simp)
      | ok e1 =>
          rw [h1] at h
          simp only [exceptBindOk] at h
          obtain ⟨c, v, hlk, hv, hbsv⟩ := recordSortValueOfChild_ok h1
          obtain ⟨f1, f2, f3, f4, f5, f6, f7, f8⟩ := recordSortValueOfChild_fields h1
          have hsame : sortTuple e1 c v = sortTuple e c v := by
            unfold sortTuple MinmaxEval.isOver
            rw [f1, f8]
          obtain ⟨p1, p2, p3⟩ := ih e1 r h
          refine ⟨?_, ?_, ?_⟩
          · intro k2 v0 hnotin hmem
            have hk2k : k2 ≠ k := fun hq => hnotin (hq ▸ List.mem_cons_self k ks)
            have hmem1 : (k2, v0) ∈ e1.branchesSortedByValue := by
              rw [hbsv]
              exact dictSet_mem_of_ne k (sortTuple e c v) hk2k hmem
            exact p1 k2 v0 (fun hq => hnotin (List.mem_cons_of_mem k hq)) hmem1
          · intro hnd
            apply p2
            rw [hbsv]
            exact dictSet_keysNodup _ _ _ hnd
          · intro hnd k2 hk2
            rcases List.mem_cons.mp hk2 with hk2k | hk2ks
            · subst hk2k
              refine ⟨c, v, hlk, hv, ?_⟩
              have hstep : (k2, sortTuple e c v) ∈ e1.branchesSortedByValue := by
                rw [hbsv]
                exact dictSet_mem_self _ _ _
              exact p1 k2 (sortTuple e c v) (List.nodup_cons.mp hnd).1 hstep
            · obtain ⟨c2, v2, hlk2, hv2, hmem2⟩ := p3 (List.nodup_cons.mp hnd).2 k2 hk2ks
              rw [f3] at hlk2
              refine ⟨c2, v2, hlk2, hv2, ?_⟩
              have hsame2 : sortTuple e1 c2 v2 = sortTuple e c2 v2 := by
                unfold sortTuple MinmaxEval.isOver
                rw [f1, f8]
              rw [← hsame2]
              exact hmem2

/-- C5: after a successful `update_branches_values(U)` on a node whose
`branches_sorted_by_value` has duplicate-free keys and with a
duplicate-free set `U`, every recomputed branch `k` of `U` is mapped to the
3-tuple `(s, l, id)` with `s` the white value of the child at `k` negated
iff the side to move is WHITE, `l` the length of the child best-branch
sequence negated iff the node is over, and `id` the child node id; the keys
stay duplicate-free and the whole mapping is sorted ascending by the
3-tuples (so the head entry is the subjectively best child). -/
theorem c5_updateBranchesValues (e : MinmaxEval) (U : List Nat) (r : MinmaxEval)
    (hU : U.Nodup) (hkeys : (e.branchesSortedByValue.map Prod.fst).Nodup)
    (h : updateBranchesValues e U = .ok r) :
    (∀ k ∈ U, ∃ c v, e.branchesChildren.lookup k = some (some c) ∧
      c.valueWhiteMinmax = some v ∧ (k, sortTuple e c v) ∈ r.branchesSortedByValue) ∧
    (r.branchesSortedByValue.map Prod.fst).Nodup ∧
    List.Chain' (fun p q => svLe p.2 q.2 = true) r.branchesSortedByValue := by
  unfold updateBranchesValues at h
  cases h1 : recordAll e U with
  | error msg => rw [h1] at h; exact absurd h (by simp)
  | ok e1 =>
      rw [h1] at h
      simp only [exceptBindOk, Except.ok.injEq] at h
      have hbsv : r.branchesSortedByValue = sortDic e1.branchesSortedByValue := by
        rw [← h]
      obtain ⟨p1, p2, p3⟩ := recordAll_spec U e e1 h1
      refine ⟨?_, ?_, ?_⟩
      · intro k hk
        obtain ⟨c, v, hlk, hv, hmem⟩ := p3 hU k hk
        refine ⟨c, v, hlk, hv, ?_⟩
        rw [hbsv]
        exact (sortDic_perm e1.branchesSortedByValue).mem_iff.mpr hmem
      · rw [hbsv]
        exact ((sortDic_perm e1.branchesSortedByValue).map Prod.fst).nodup_iff.mpr (p2 hkeys)
      · rw [hbsv]
        exact sortDic_sorted e1.branchesSortedByValue

/-- Child at branch 0 of the C5 witness node. -/
def c5childa : ChildNode :=
  { id := 1, valueWhiteMinmax := some (-1), bestBranchSequence := [], overEvent := {} }

/-- Child at branch 1 of the C5 witness node. -/
def c5childb : ChildNode :=
  { id := 2, valueWhiteMinmax := some 2, bestBranchSequence := [4], overEvent := {} }

/-- C5 witness node: WHITE to move, two opened children with stale sort
values. -/
def c5ex : MinmaxEval :=
  { turn := Color.WHITE
    allBranchesGenerated := true
    branchesChildren := [(0, some c5childa), (1, some c5childb)]
    valueWhiteDirectEvaluation := some 0
    valueWhiteMinmax := some 1
    bestBranchSequence := [0]
    branchesSortedByValue := [(0, (-3, 0, 1)), (1, (1, 0, 2))]
    branchesNotOver := [0, 1]
    overEvent := {} }

/-- Result of the C5 witness run: both tuples recomputed and the dictionary
re-sorted ascending, the better child (branch 1, subjective value -2) at
the head. -/
def c5res : MinmaxEval :=
  { c5ex with branchesSortedByValue := [(1, (-2, 1, 2)), (0, (1, 0, 1))] }

/-- Witness for C5: the sortedness and key-uniqueness conclusions applied to
the concrete run of `update_branches_values` on `c5ex`. -/
theorem c5_witness :
    List.Chain' (fun p q => svLe p.2 q.2 = true) c5res.branchesSortedByValue ∧
    (c5res.branchesSortedByValue.map Prod.fst).Nodup :=
  ⟨(c5_updateBranchesValues c5ex [0, 1] c5res (by decide) (by decide) rfl).2.2,
   (c5_updateBranchesValues c5ex [0, 1] c5res (by decide) (by decide) rfl).2.1⟩

theorem updateBranchesValues_fields {e r : MinmaxEval} {U : List Nat}
    (h : updateBranchesValues e U = .ok r) :
    r.turn = e.turn ∧ r.allBranchesGenerated = e.allBranchesGenerated ∧
    r.branchesChildren = e.branchesChildren ∧
    r.valueWhiteDirectEvaluation = e.valueWhiteDirectEvaluation ∧
    r.valueWhiteMinmax = e.valueWhiteMinmax ∧
    r.bestBranchSequence = e.bestBranchSequence ∧
    r.branchesNotOver = e.branchesNotOver ∧
    r.overEvent = e.overEvent := by
  unfold updateBranchesValues at h
  cases h1 : recordAll e U with
  | error msg => rw [h1] at h; exact absurd h (by simp)
  | ok e1 =>
      rw [h1] at h
      simp only [exceptBindOk, Except.ok.injEq] at h
      obtain ⟨a1, a2, a3, a4, a5, a6, a7, a8⟩ := recordAll_fields h1
      subst h
      exact ⟨a1, a2, a3, a4, a5, a6, a7, a8⟩

theorem updateValueMinmax_fields {e r : MinmaxEval} (h : updateValueMinmax e = .ok r) :
    r.turn = e.turn ∧ r.allBranchesGenerated = e.allBranchesGenerated ∧
    r.branchesChildren = e.branchesChildren ∧
    r.valueWhiteDirectEvaluation = e.valueWhiteDirectEvaluation ∧
    r.bestBranchSequence = e.bestBranchSequence ∧
    r.branchesSortedByValue = e.branchesSortedByValue ∧
    r.branchesNotOver = e.branchesNotOver ∧
    r.overEvent = e.overEvent := by
  unfold updateValueMinmax at h
  cases hbb : bestBranch e with
  | none => rw [hbb] at h; exact absurd h (by simp)
  | some bk =>
      rw [hbb] at h
      dsimp only at h
      cases hgc : getChild e bk with
      | error msg => rw [hgc] at h; exact absurd h (by simp)
      | ok bc =>
          rw [hgc] at h
          simp only [exceptBindOk] at h
          cases hv : bc.valueWhiteMinmax with
          | none => rw [ChildNode.getValueWhite, hv] at h; simp at h
          | some v =>
              rw [ChildNode.getValueWhite, hv] at h
              simp only [exceptBindOk] at h
              by_cases hgen : e.allBranchesGenerated = true
              · rw [if_pos hgen] at h
                simp only [Except.ok.injEq] at h
                subst h
                simp
              · rw [if_neg hgen] at h
                by_cases ht : e.turn = Color.WHITE
                · rw [if_pos ht] at h
                  cases hdir : e.valueWhiteDirectEvaluation with
                  | none => rw [hdir] at h; simp at h
                  | some d =>
                      rw [hdir] at h
                      simp only [Except.ok.injEq] at h
                      subst h
                      simp
                · rw [if_neg ht] at h
                  cases hdir : e.valueWhiteDirectEvaluation with
                  | none => rw [hdir] at h; simp at h
                  | some d =>
                      rw [hdir] at h
                      simp only [Except.ok.injEq] at h
                      subst h
                      simp

theorem oneOfBest_ok {e r : MinmaxEval}
    (h : oneOfBestChildrenBecomesBestNextNode e = .ok r) :
    ∃ k1 sv1 c1, e.branchesSortedByValue.head? = some (k1, sv1) ∧
      e.branchesChildren.lookup k1 = some (some c1) ∧
      r = { e with bestBranchSequence := k1 :: c1.bestBranchSequence } := by
  unfold oneOfBestChildrenBecomesBestNextNode getAllOfTheBestBranchesEqual at h
  cases hl : e.branchesSortedByValue with
  | nil => rw [hl] at h; exact absurd h (by simp)
  | cons hd tl =>
      rw [hl] at h
      dsimp only [List.head?_cons] at h
      rw [List.filter_cons] at h
      rw [if_pos (show decide (hd.2 = hd.2) = true by simp)] at h
      by_cases hlen :
          (List.map Prod.fst (hd :: List.filter (fun p => decide (p.2 = hd.2)) tl)).length = 1
      · rw [if_pos hlen] at h
        simp only [exceptBindOk] at h
        rw [List.map_cons] at h
        dsimp only [List.head?_cons] at h
        cases hgc : getChild e hd.1 with
        | error msg => rw [hgc] at h; exact absurd h (by simp)
        | ok c1 =>
            rw [hgc] at h
            simp only [exceptBindOk, Except.ok.injEq] at h
            subst h
            unfold getChild at hgc
            cases hlk : e.branchesChildren.lookup hd.1 with
            | none => rw [hlk] at hgc; exact absurd hgc (by simp)
            | some oc =>
                cases oc with
                | none => rw [hlk] at hgc; exact absurd hgc (by simp)
                | some c =>
                    rw [hlk] at hgc
                    simp only [Except.ok.injEq] at hgc
                    subst hgc
                    exact ⟨hd.1, hd.2, c, by simp, hlk, rfl⟩
      · rw [if_neg hlen] at h
        exact absurd h (by simp)

theorem c6_tail (e e2 r : MinmaxEval) (b1 b2 : Bool) (k0 : Nat) (c0 : ChildNode)
    (v0 d vb va : Rat)
    (hgen2 : e2.allBranchesGenerated = false)
    (hbc2 : e2.branchesChildren = e.branchesChildren)
    (hturn2 : e2.turn = e.turn)
    (hdir2 : e2.valueWhiteDirectEvaluation = some d)
    (hseq2 : e2.bestBranchSequence = e.bestBranchSequence)
    (hc0 : e.branchesChildren.lookup k0 = some (some c0))
    (hv0 : c0.valueWhiteMinmax = some v0)
    (hrun : (do
      let bestChildBeforeUpdate ← getChild e2 k0
      let v00 ← bestChildBeforeUpdate.getValueWhite
      let better ← isValueSubjectivelyBetterThanEvaluation e2 v00
      if better = true then do
        let e3 ← oneOfBestChildrenBecomesBestNextNode e2
        Except.ok (e3, decide (vb ≠ va),
          decide (e2.bestBranchSequence ≠ e3.bestBranchSequence))
      else
        Except.ok ({ e2 with allBranchesGenerated := false, bestBranchSequence := [] },
          decide (vb ≠ va),
          decide (e2.bestBranchSequence ≠ ([] : List Nat)))) = Except.ok (r, b1, b2)) :
    b1 = decide (vb ≠ va) ∧
    b2 = decide (e.bestBranchSequence ≠ r.bestBranchSequence) ∧
    (((if e.turn = Color.WHITE then v0 else -v0) ≥ d) →
      ∀ k1 sv1 c1, e2.branchesSortedByValue.head? = some (k1, sv1) →
        e.branchesChildren.lookup k1 = some (some c1) →
        r.bestBranchSequence = k1 :: c1.bestBranchSequence) ∧
    ((¬ ((if e.turn = Color.WHITE then v0 else -v0) ≥ d)) →
      r.bestBranchSequence = []) := by
  have hgc2 : getChild e2 k0 = .ok c0 := by
    unfold getChild
    rw [hbc2, hc0]
  rw [hgc2] at hrun
  simp only [exceptBindOk] at hrun
  have hgv0 : ChildNode.getValueWhite c0 = Except.ok v0 := by
    unfold ChildNode.getValueWhite
    rw [hv0]
  rw [hgv0] at hrun
  simp only [exceptBindOk] at hrun
  have hbet : isValueSubjectivelyBetterThanEvaluation e2 v0 =
      .ok (decide ((if e.turn = Color.WHITE then v0 else -v0) ≥ d)) := by
    unfold isValueSubjectivelyBetterThanEvaluation
    rw [hturn2, hdir2]
  rw [hbet] at hrun
  simp only [exceptBindOk] at hrun
  by_cases hge : (if e.turn = Color.WHITE then v0 else -v0) ≥ d
  · rw [if_pos (by simp [hge])] at hrun
    cases hone : oneOfBestChildrenBecomesBestNextNode e2 with
    | error msg => rw [hone] at hrun; exact absurd hrun (by simp)
    | ok e3 =>
        rw [hone] at hrun
        simp only [exceptBindOk, Except.ok.injEq, Prod.mk.injEq] at hrun
        obtain ⟨hre, hb1, hb2⟩ := hrun
        obtain ⟨k1t, sv1t, c1t, hhead, hlk1, he3⟩ := oneOfBest_ok hone
        subst hre
        refine ⟨hb1.symm, ?_, ?_, ?_⟩
        · rw [hseq2] at hb2
          exact hb2.symm
        · intro hge2 k1 sv1 c1 hh1 hl1
          rw [hhead] at hh1
          simp only [Option.some_inj, Prod.mk.injEq] at hh1
          obtain ⟨hk1eq, _⟩ := hh1
          subst hk1eq
          rw [hbc2, hl1] at hlk1
          simp only [Option.some_inj] at hlk1
          rw [he3, hlk1]
        · intro hno
          exact absurd hge hno
  · rw [if_neg (by simp [hge])] at hrun
    simp only [exceptPureBind, Except.ok.injEq, Prod.mk.injEq] at hrun
    obtain ⟨hre, hb1, hb2⟩ := hrun
    subst hre
    refine ⟨hb1.symm, ?_, ?_, ?_⟩
    · rw [hseq2] at hb2
      exact hb2.symm
    · intro hge2
      exact absurd hge2 hge
    · intro _
      rfl

/-- Child of branch 0 (the stale best) of the C6 scenario. -/
def c6childa : ChildNode :=
  { id := 1, valueWhiteMinmax := some (-1), bestBranchSequence := [], overEvent := {} }

/-- Child of branch 1 (the new head after the update) of the C6 scenario. -/
def c6childb : ChildNode :=
  { id := 2, valueWhiteMinmax := some 2, bestBranchSequence := [], overEvent := {} }

/-- C6 scenario: WHITE to move, `all_branches_generated` false, direct
evaluation 0, previous best branch 0 whose child value dropped to -1 while
branch 1 rose to 2. -/
def c6ex : MinmaxEval :=
  { turn := Color.WHITE
    allBranchesGenerated := false
    branchesChildren := [(0, some c6childa), (1, some c6childb)]
    valueWhiteDirectEvaluation := some 0
    valueWhiteMinmax := some 1
    bestBranchSequence := [0]
    branchesSortedByValue := [(0, (-3, 0, 1)), (1, (1, 0, 2))]
    branchesNotOver := [0, 1]
    overEvent := {} }

/-- C6 counterexample: the claim states that with `all_branches_generated`
false the new head child is adopted whenever its value is subjectively
better than the node's direct evaluation.  On `c6ex` the run succeeds, the
new head is branch 1 whose child value 2 is subjectively better than the
direct evaluation 0, yet `best_branch_sequence` becomes empty: the code
tests the PREVIOUS best branch's child (value -1), not the new head. -/
theorem c6_counterexample :
    (minmaxValueUpdateFromChildren c6ex [0, 1]).map (fun p => p.1.bestBranchSequence) =
      Except.ok [] ∧
    (minmaxValueUpdateFromChildren c6ex [0, 1]).map (fun p => bestBranch p.1) =
      Except.ok (some 1) ∧
    (minmaxValueUpdateFromChildren c6ex [0, 1]).map
      (fun p => isValueSubjectivelyBetterThanEvaluation p.1 2) =
      Except.ok (Except.ok true) ∧
    (getChild c6ex 1).map (fun c => c.valueWhiteMinmax) = Except.ok (some 2) ∧
    c6ex.allBranchesGenerated = false :=
  ⟨rfl, rfl, rfl, rfl, rfl⟩

/-- C6 amended: in `minmax_value_update_from_children`, when
`all_branches_generated` is false the adoption test uses the PREVIOUS best
branch's child (with its already-updated value), not the new head: a
successful run adopts the new head of the re-sorted dictionary as the start
of `best_branch_sequence` when the previous best child's value is
subjectively at least the direct evaluation, and otherwise empties
`best_branch_sequence`; the returned pair says whether the minmax value
changed and whether the best branch sequence changed. -/
theorem c6_minmaxValueUpdate (e e1 e2 r : MinmaxEval) (U : List Nat)
    (b1 b2 : Bool) (k0 : Nat) (c0 : ChildNode) (v0 d vb va : Rat)
    (hgen : e.allBranchesGenerated = false)
    (h1 : updateBranchesValues e U = .ok e1)
    (h2 : updateValueMinmax e1 = .ok e2)
    (hk0 : bestBranch e = some k0)
    (hc0 : e.branchesChildren.lookup k0 = some (some c0))
    (hv0 : c0.valueWhiteMinmax = some v0)
    (hd : e.valueWhiteDirectEvaluation = some d)
    (hvb : e.valueWhiteMinmax = some vb)
    (hva : e2.valueWhiteMinmax = some va)
    (hrun : minmaxValueUpdateFromChildren e U = .ok (r, b1, b2)) :
    b1 = decide (vb ≠ va) ∧
    b2 = decide (e.bestBranchSequence ≠ r.bestBranchSequence) ∧
    (((if e.turn = Color.WHITE then v0 else -v0) ≥ d) →
      ∀ k1 sv1 c1, e2.branchesSortedByValue.head? = some (k1, sv1) →
        e.branchesChildren.lookup k1 = some (some c1) →
        r.bestBranchSequence = k1 :: c1.bestBranchSequence) ∧
    ((¬ ((if e.turn = Color.WHITE then v0 else -v0) ≥ d)) →
      r.bestBranchSequence = []) := by
  obtain ⟨q1, q2, q3, q4, q5, q6, q7, q8⟩ := updateBranchesValues_fields h1
  obtain ⟨w1, w2, w3, w4, w5, w6, w7, w8⟩ := updateValueMinmax_fields h2
  have hgen2 : e2.allBranchesGenerated = false := by rw [w2, q2, hgen]
  have hbc2 : e2.branchesChildren = e.branchesChildren := by rw [w3, q3]
  have hturn2 : e2.turn = e.turn := by rw [w1, q1]
  have hdir2 : e2.valueWhiteDirectEvaluation = some d := by rw [w4, q4, hd]
  have hseq2 : e2.bestBranchSequence = e.bestBranchSequence := by rw [w5, q6]
  unfold minmaxValueUpdateFromChildren at hrun
  have hgvb : MinmaxEval.getValueWhite e = Except.ok vb := by
    unfold MinmaxEval.getValueWhite
    rw [hvb]
  rw [hgvb] at hrun
  simp only [exceptBindOk] at hrun
  rw [h1] at hrun
  simp only [exceptBindOk] at hrun
  rw [h2] at hrun
  simp only [exceptBindOk] at hrun
  have hgva : MinmaxEval.getValueWhite e2 = Except.ok va := by
    unfold MinmaxEval.getValueWhite
    rw [hva]
  rw [hgva] at hrun
  simp only [exceptBindOk] at hrun
  rw [hk0] at hrun
  dsimp only at hrun
  simp only [hgen2, Bool.false_eq_true, if_false] at hrun
  cases hlk0 : e2.branchesSortedByValue.lookup k0 with
  | none => rw [hlk0] at hrun; exact absurd hrun (by simp)
  | some uv =>
      rw [hlk0] at hrun
      dsimp only at hrun
      cases hbv : bestBranchValue e2 with
      | none =>
          rw [hbv] at hrun
          dsimp only at hrun
          simp only [exceptPureBind] at hrun
          exact c6_tail e e2 r b1 b2 k0 c0 v0 d vb va hgen2 hbc2 hturn2 hdir2
            hseq2 hc0 hv0 hrun
      | some bv =>
          rw [hbv] at hrun
          dsimp only at hrun
          simp only [exceptPureBind] at hrun
          exact c6_tail e e2 r b1 b2 k0 c0 v0 d vb va hgen2 hbc2
            hturn2 hdir2 hseq2 hc0 hv0 hrun

/-- Child at branch 0 (previous best) of the C6 witness node. -/
def c6wita : ChildNode :=
  { id := 1, valueWhiteMinmax := some 1, bestBranchSequence := [], overEvent := {} }

/-- Child at branch 1 (new head) of the C6 witness node. -/
def c6witb : ChildNode :=
  { id := 2, valueWhiteMinmax := some 3, bestBranchSequence := [9], overEvent := {} }

/-- C6 witness node: WHITE to move, branches not all generated, direct
evaluation 0 and previous best child value 1, so the heuristic adopts the
new head. -/
def c6wit : MinmaxEval :=
  { turn := Color.WHITE
    allBranchesGenerated := false
    branchesChildren := [(0, some c6wita), (1, some c6witb)]
    valueWhiteDirectEvaluation := some 0
    valueWhiteMinmax := some 1
    bestBranchSequence := [0]
    branchesSortedByValue := [(0, (-1, 0, 1)), (1, (0, 0, 2))]
    branchesNotOver := [0, 1]
    overEvent := {} }

/-- State of the C6 witness node after `update_branches_values([1])`. -/
def c6wit1 : MinmaxEval :=
  { c6wit with branchesSortedByValue := [(1, (-3, 1, 2)), (0, (-1, 0, 1))] }

/-- State of the C6 witness node after the subsequent `update_value_minmax`. -/
def c6wit2 : MinmaxEval :=
  { c6wit1 with valueWhiteMinmax := some 3 }

/-- Final state of the C6 witness run: the new head branch 1 adopted. -/
def c6wres : MinmaxEval :=
  { c6wit2 with bestBranchSequence := [1, 9] }

/-- Witness for C6: the amended characterisation applied to a concrete run
of `minmax_value_update_from_children` in which the previous best child
passes the adoption test, so the new head is adopted. -/
theorem c6_witness :
    true = decide ((1 : Rat) ≠ 3) ∧
    true = decide (c6wit.bestBranchSequence ≠ c6wres.bestBranchSequence) ∧
    c6wres.bestBranchSequence = 1 :: c6witb.bestBranchSequence :=
  ⟨(c6_minmaxValueUpdate c6wit c6wit1 c6wit2 c6wres [1] true true 0 c6wita 1 0 1 3
      rfl rfl rfl rfl rfl rfl rfl rfl rfl rfl).1,
   (c6_minmaxValueUpdate c6wit c6wit1 c6wit2 c6wres [1] true true 0 c6wita 1 0 1 3
      rfl rfl rfl rfl rfl rfl rfl rfl rfl rfl).2.1,
   (c6_minmaxValueUpdate c6wit c6wit1 c6wit2 c6wres [1] true true 0 c6wita 1 0 1 3
      rfl rfl rfl rfl rfl rfl rfl rfl rfl rfl).2.2.1 (by decide) 1 (-3, 1, 2) c6witb
      rfl rfl⟩

/-!
MinGlobalChange exploration-index data and its update
(`indices/index_manager/node_exploration_manager.py`, class
`UpdateIndexGlobalMinChange`).
-/

/-- Exploration-index record of the MinGlobalChange variant
(`MinMaxPathValue` of `indices/node_indices/index_data.py`): an optional
index and optional min/max path values. -/
structure MinMaxPathValue where
  index : Option Rat
  minPathValue : Option Rat
  maxPathValue : Option Rat
deriving DecidableEq, Repr

/-- Method `UpdateIndexGlobalMinChange.update_node_indices`
(lines 151-219 of `node_exploration_manager.py`): asserts the parent path
values are set, computes the child path bounds and local index, stores them
when the child index is unset, and otherwise merges by
`index := min(old, local)`, `max_path_value := min(new_max, old_max)`,
`min_path_value := max(new_min, old_min)`.  The child white value argument
stands for `child_node.tree_evaluation.get_value_white()`. -/
def updateNodeIndicesGlobalMinChange (parentData : MinMaxPathValue)
    (childValueWhite : Rat) (childData : MinMaxPathValue) :
    Except String MinMaxPathValue :=
  match parentData.minPathValue, parentData.maxPathValue with
  | some parentMinPathValue, some parentMaxPathValue =>
      let childNodeMinPathValue := min childValueWhite parentMinPathValue
      let childNodeMaxPathValue := max childValueWhite parentMaxPathValue
      let childIndex : Rat := |childNodeMaxPathValue - childNodeMinPathValue| / 2
      match childData.index with
      | none => .ok { index := some childIndex,
                      minPathValue := some childNodeMinPathValue,
                      maxPathValue := some childNodeMaxPathValue }
      | some oldIndex =>
          match childData.maxPathValue, childData.minPathValue with
          | some oldMax, some oldMin =>
              .ok { index := some (min oldIndex childIndex),
                    maxPathValue := some (min childNodeMaxPathValue oldMax),
                    minPathValue := some (max childNodeMinPathValue oldMin) }
          | _, _ => .error "assert child path values are not None"
  | _, _ => .error "assert parent path values are not None"

/-- C7: for the MinGlobalChange index, the multi-parent merge stores
`index := min(old index, new local index)`,
`max_path_value := min(new max, old max)` and
`min_path_value := max(new min, old min)`; consequently re-applying
`update_node_indices` for the same parent data and child value is
idempotent: the second application returns the child data unchanged. -/
theorem c7_minGlobalChange (pIdx : Option Rat) (pmin pmax cv : Rat) :
    (∀ oi omin omax : Rat,
      updateNodeIndicesGlobalMinChange ⟨pIdx, some pmin, some pmax⟩ cv
          ⟨some oi, some omin, some omax⟩ =
        .ok ⟨some (min oi (|max cv pmax - min cv pmin| / 2)),
             some (max (min cv pmin) omin),
             some (min (max cv pmax) omax)⟩) ∧
    (∀ c c1 : MinMaxPathValue,
      updateNodeIndicesGlobalMinChange ⟨pIdx, some pmin, some pmax⟩ cv c = .ok c1 →
      updateNodeIndicesGlobalMinChange ⟨pIdx, some pmin, some pmax⟩ cv c1 = .ok c1) := by
  constructor
  · intro oi omin omax
    rfl
  · intro c c1 h
    unfold updateNodeIndicesGlobalMinChange at h ⊢
    dsimp only at h ⊢
    cases hci : c.index with
    | none =>
        rw [hci] at h
        simp only [Except.ok.injEq] at h
        subst h
        dsimp only
        rw [min_self, max_self, min_self]
    | some oldIndex =>
        rw [hci] at h
        cases hcm : c.maxPathValue with
        | none => rw [hcm] at h; cases hcn : c.minPathValue <;> rw [hcn] at h <;> simp at h
        | some oldMax =>
            rw [hcm] at h
            cases hcn : c.minPathValue with
            | none => rw [hcn] at h; simp at h
            | some oldMin =>
                rw [hcn] at h
                simp only [Except.ok.injEq] at h
                subst h
                dsimp only
                rw [min_assoc, min_self, ← min_assoc (max cv pmax), min_self,
                  ← max_assoc (min cv pmin), max_self]

/-- Fixed point reached after one application in the C7 witness run. -/
def c7fix : MinMaxPathValue :=
  { index := some 0, minPathValue := some 0, maxPathValue := some 0 }

/-- Witness for C7: on concrete data, re-applying the MinGlobalChange update
to the result of a first application returns it unchanged. -/
theorem c7_witness :
    updateNodeIndicesGlobalMinChange ⟨none, some 0, some 0⟩ 0 c7fix = Except.ok c7fix :=
  (c7_minGlobalChange none 0 0 0).2 ⟨none, none, none⟩ c7fix (by
    unfold updateNodeIndicesGlobalMinChange c7fix
    norm_num)

/-!
Direct-evaluation bridge
(`node_evaluation/node_direct_evaluation/node_direct_evaluator.py`).
The external terminal detector (`master_state_evaluator.over`) is modelled
by the pair it returns for the node state.
-/

/-- Observable part of an `AlgorithmNode` used by `NodeDirectEvaluator`:
node id, tree depth, the over event and the two evaluation fields of its
`tree_evaluation`. -/
structure DirectEvalNode where
  id : Nat
  treeDepth : Nat
  overEvent : OverEvent
  valueWhiteDirectEvaluation : Option Rat
  valueWhiteMinmax : Option Rat
deriving DecidableEq, Repr

/-- The two query lists of `EvaluationQueries` (node ids in append order). -/
structure EvaluationQueries where
  overNodes : List Nat
  notOverNodes : List Nat
deriving DecidableEq, Repr

/-- Method `NodeMinmaxEvaluation.set_evaluation`
(lines 143-155 of `node_minmax_evaluation.py`): writes both
`value_white_direct_evaluation` and the initial `value_white_minmax`. -/
def setEvaluation (n : DirectEvalNode) (evaluation : Rat) : DirectEvalNode :=
  { n with valueWhiteDirectEvaluation := some evaluation,
           valueWhiteMinmax := some evaluation }

/-- Method `NodeDirectEvaluator.check_obvious_over_events`
(lines 106-124 of `node_direct_evaluator.py`); the argument `detected` is
the pair returned by the external terminal detector for the node state.
When an over event is reported the node's over event is overwritten, the
evaluation is asserted present and written through `set_evaluation`. -/
def checkObviousOverEvents (detected : Option OverEvent × Option Rat)
    (n : DirectEvalNode) : Except String DirectEvalNode :=
  match detected.1 with
  | none => .ok n
  | some overEvent =>
      let n1 := { n with overEvent :=
        (n.overEvent.becomesOver overEvent.howOver overEvent.whoIsWinner
          overEvent.termination) }
      match detected.2 with
      | none => .error "assert Evaluation should not be None for over nodes"
      | some evaluation => .ok (setEvaluation n1 evaluation)

/-- Method `NodeDirectEvaluator.add_evaluation_query`
(lines 142-153 of `node_direct_evaluator.py`): asserts the node has no
direct evaluation yet, runs the obvious-over check, then appends the node
to the over or the not-over query list. -/
def addEvaluationQuery (detected : Option OverEvent × Option Rat)
    (n : DirectEvalNode) (q : EvaluationQueries) :
    Except String (DirectEvalNode × EvaluationQueries) :=
  match n.valueWhiteDirectEvaluation with
  | some _ => .error "assert value_white_direct_evaluation is None"
  | none => do
      let n1 ← checkObviousOverEvents detected n
      if n1.overEvent.isOver then
        .ok (n1, { q with overNodes := q.overNodes ++ [n1.id] })
      else
        .ok (n1, { q with notOverNodes := q.notOverNodes ++ [n1.id] })

/-- C8 counterexample: the claim states that enqueueing an already-evaluated
node is an idempotent no-op; on a node whose direct evaluation is set,
`add_evaluation_query` instead fails its precondition assertion. -/
theorem c8_counterexample :
    addEvaluationQuery (none, none)
      { id := 7, treeDepth := 1, overEvent := {},
        valueWhiteDirectEvaluation := some 1, valueWhiteMinmax := some 1 }
      { overNodes := [], notOverNodes := [] } =
      Except.error "assert value_white_direct_evaluation is None" :=
  rfl

/-- C8 amended: a node's direct evaluation is written only while unset:
`add_evaluation_query` asserts `value_white_direct_evaluation is None`, so
on an already-evaluated node it raises the assertion (performing no state
change) rather than being an idempotent no-op; a successful call starts
from an unevaluated node and writes the direct evaluation exactly when the
terminal detector reports the node over, with the detector's evaluation. -/
theorem c8_addEvaluationQuery (detected : Option OverEvent × Option Rat)
    (n : DirectEvalNode) (q : EvaluationQueries) :
    (∀ v, n.valueWhiteDirectEvaluation = some v →
      addEvaluationQuery detected n q =
        Except.error "assert value_white_direct_evaluation is None") ∧
    (∀ r, addEvaluationQuery detected n q = .ok r →
      n.valueWhiteDirectEvaluation = none ∧
      (detected.1 = none → r.1.valueWhiteDirectEvaluation = none) ∧
      (∀ ov ev, detected.1 = some ov → detected.2 = some ev →
        r.1.valueWhiteDirectEvaluation = some ev)) := by
  constructor
  · intro v hv
    unfold addEvaluationQuery
    rw [hv]
  · intro r hr
    unfold addEvaluationQuery at hr
    cases hv : n.valueWhiteDirectEvaluation with
    | some v => rw [hv] at hr; exact absurd hr (by simp)
    | none =>
        rw [hv] at hr
        refine ⟨rfl, ?_, ?_⟩
        · intro hdet
          unfold checkObviousOverEvents at hr
          rw [hdet] at hr
          simp only [exceptBindOk] at hr
          by_cases ho : n.overEvent.isOver = true
          · rw [if_pos ho] at hr
            simp only [Except.ok.injEq] at hr
            rw [← hr]
            exact hv
          · rw [if_neg ho] at hr
            simp only [Except.ok.injEq] at hr
            rw [← hr]
            exact hv
        · intro ov ev hov hev
          unfold checkObviousOverEvents at hr
          rw [hov] at hr
          dsimp only at hr
          rw [hev] at hr
          simp only [exceptBindOk] at hr
          by_cases ho : (setEvaluation { n with overEvent :=
              (n.overEvent.becomesOver ov.howOver ov.whoIsWinner ov.termination) }
              ev).overEvent.isOver = true
          · rw [if_pos ho] at hr
            simp only [Except.ok.injEq] at hr
            rw [← hr]
            rfl
          · rw [if_neg ho] at hr
            simp only [Except.ok.injEq] at hr
            rw [← hr]
            rfl

/-- Witness for C8: the precondition-failure conclusion applied at a
concrete evaluated node, and the successful-path conclusion applied at a
concrete unevaluated node. -/
theorem c8_witness :
    addEvaluationQuery (none, none)
      { id := 3, treeDepth := 0, overEvent := {},
        valueWhiteDirectEvaluation := some 2, valueWhiteMinmax := some 2 }
      { overNodes := [], notOverNodes := [] } =
      Except.error "assert value_white_direct_evaluation is None" :=
  (c8_addEvaluationQuery (none, none)
    { id := 3, treeDepth := 0, overEvent := {},
      valueWhiteDirectEvaluation := some 2, valueWhiteMinmax := some 2 }
    { overNodes := [], notOverNodes := [] }).1 2 rfl

/-!
Stopping criterion `TreeBranchLimit`
(`progress_monitor/progress_monitor.py`) over the counters of `Tree`
(`trees/tree.py`) and `OpeningInstructions.pop_items`
(`node_selector/opening_instructions.py`).
-/

/-- The attributes of `Tree.__init__` (lines 28-50 of `trees/tree.py`)
read by the progress monitors: the two integer counters and whether
`root_node.is_over()` holds. -/
structure TreeAttrs where
  moveCount : Int
  nodesCount : Int
  rootIsOver : Bool
deriving DecidableEq, Repr

/-- Python attribute lookup on a `Tree` instance: `Tree` defines
`move_count` and `nodes_count` (lines 41 and 47 of `trees/tree.py`);
any other name raises `AttributeError`.  In particular the class defines
no `branch_count` attribute. -/
def treeGetAttr (t : TreeAttrs) (name : String) : Except String Int :=
  if name = "move_count" then .ok t.moveCount
  else if name = "nodes_count" then .ok t.nodesCount
  else .error ("AttributeError: " ++ name)

/-- Method `OpeningInstructions.pop_items` loop body: pops
`min(how_many, len(batch))` entries from the tail of the batch dict into
`popped` (insertion-ordered dict; `dict.popitem` removes the last entry). -/
def popItemsLoop : List (Nat × Nat) → List (Nat × Nat) → Nat →
    List (Nat × Nat) × List (Nat × Nat)
  | batch, popped, 0 => (batch, popped)
  | batch, popped, Nat.succ n =>
      match batch.getLast? with
      | none => (batch, popped)
      | some kv => popItemsLoop batch.dropLast (dictSet popped kv.1 kv.2) n

/-- Method `OpeningInstructions.pop_items`
(lines 127-138 of `opening_instructions.py`): clamps `how_many` to the
batch size (an empty iteration range when negative) and pops that many
entries from the tail.  Returns (remaining batch, popped dict). -/
def popItems (batch popped : List (Nat × Nat)) (howMany : Int) :
    List (Nat × Nat) × List (Nat × Nat) :=
  popItemsLoop batch popped (min howMany (batch.length : Int)).toNat

/-- Method `TreeBranchLimit.should_we_continue`
(progress_monitor.py): `continue_base = not tree.root_node.is_over()`
(the base class method), then the short-circuit conjunction
`continue_base and tree.branch_count < self.tree_branch_limit`, with the
attribute read modelled by `treeGetAttr`. -/
def shouldWeContinueTreeBranchLimit (treeBranchLimit : Int) (t : TreeAttrs) :
    Except String Bool :=
  let continueBase := !t.rootIsOver
  if continueBase then do
    let bc ← treeGetAttr t "branch_count"
    .ok (decide (bc < treeBranchLimit))
  else .ok false

/-- Method `TreeBranchLimit.respectful_opening_instructions`
(progress_monitor.py): pops `self.tree_branch_limit - tree.branch_count`
entries of the batch into a fresh subset and returns the subset, with the
attribute read modelled by `treeGetAttr`. -/
def respectfulOpeningInstructionsTreeBranchLimit (treeBranchLimit : Int)
    (t : TreeAttrs) (batch : List (Nat × Nat)) :
    Except String (List (Nat × Nat)) := do
  let bc ← treeGetAttr t "branch_count"
  .ok (popItems batch [] (treeBranchLimit - bc)).2

/-- C3: `Tree` defines `move_count`, not `branch_count`, so under
`TreeBranchLimit(N)` the method `should_we_continue` raises
`AttributeError` whenever the root is not over (it only returns, with
value `False`, when the root is over, since the Python `and`
short-circuits), and `respectful_opening_instructions` always raises
`AttributeError`; the claimed comparison of the edge counter against `N`
is never evaluated. -/
theorem c3_treeBranchLimit (treeBranchLimit : Int) (t : TreeAttrs) :
    (t.rootIsOver = true →
      shouldWeContinueTreeBranchLimit treeBranchLimit t = .ok false) ∧
    (t.rootIsOver = false →
      shouldWeContinueTreeBranchLimit treeBranchLimit t =
        .error "AttributeError: branch_count") ∧
    (∀ batch,
      respectfulOpeningInstructionsTreeBranchLimit treeBranchLimit t batch =
        .error "AttributeError: branch_count") := by
  refine ⟨?_, ?_, ?_⟩
  · intro h
    unfold shouldWeContinueTreeBranchLimit
    rw [h]
    rfl
  · intro h
    unfold shouldWeContinueTreeBranchLimit
    rw [h]
    rfl
  · intro batch
    rfl

/-- Witness for C3: the concrete failing input of the report — a
`TreeBranchLimit(10)` monitor and a fresh tree whose root is not over. -/
theorem c3_witness :
    shouldWeContinueTreeBranchLimit 10
        { moveCount := 0, nodesCount := 1, rootIsOver := false } =
      .error "AttributeError: branch_count" :=
  (c3_treeBranchLimit 10
    { moveCount := 0, nodesCount := 1, rootIsOver := false }).2.1 rfl

/-!
Pending-update bookkeeping (`updates/updates_file.py` and
`updates/value_block.py`).  Branch keys and parent nodes are identified by
naturals; Python sets of branch keys are lists in insertion order.
-/

/-- Dataclass `ValueUpdateInstructionsFromOneNode`
(lines 23-30 of `value_block.py`), declared with `slots=True`: exactly the
four declared fields exist as attributes.  The sending node is kept by id. -/
structure ValueUpdateInstructionsFromOneNode where
  nodeSendingUpdate : Nat
  isNodeNewlyOver : Bool
  newValueForNode : Bool
  newBestBranchForNode : Bool
deriving DecidableEq, Repr

/-- Python attribute lookup for the boolean slots of a
`ValueUpdateInstructionsFromOneNode` instance: with `slots=True` only the
declared names resolve, every other name is an `AttributeError` (`none`). -/
def vuiGetattr (v : ValueUpdateInstructionsFromOneNode) (name : String) :
    Option Bool :=
  if name = "is_node_newly_over" then some v.isNodeNewlyOver
  else if name = "new_value_for_node" then some v.newValueForNode
  else if name = "new_best_branch_for_node" then some v.newBestBranchForNode
  else none

/-- A Python attribute read: resolves through `vuiGetattr` or raises. -/
def vuiReadAttr (v : ValueUpdateInstructionsFromOneNode) (name : String) :
    Except String Bool :=
  match vuiGetattr v name with
  | some b => .ok b
  | none => .error ("AttributeError: " ++ name)

/-- Python `set.add` on an insertion-ordered model of a set. -/
def setAdd (s : List Nat) (x : Nat) : List Nat :=
  if s.contains x then s else s ++ [x]

/-- Dataclass `ValueUpdateInstructionsTowardsOneParentNode`
(`value_block.py`): the three branch-key sets. -/
structure ValueUpdatesTowardsOneParentNode where
  branchesWithUpdatedOver : List Nat
  branchesWithUpdatedValue : List Nat
  branchesWithUpdatedBestBranch : List Nat
deriving DecidableEq, Repr

/-- Method `ValueUpdateInstructionsTowardsOneParentNode.add_update_from_one_child_node`
(lines 52-68 of `value_block.py`): conditionally adds the branch to each of
the three sets; the attribute reads here use the declared slot names and
always resolve. -/
def valueAddUpdateFromOneChildNode (blk : ValueUpdatesTowardsOneParentNode)
    (u : ValueUpdateInstructionsFromOneNode) (branch : Nat) :
    ValueUpdatesTowardsOneParentNode :=
  let blk1 := if u.isNodeNewlyOver then
      { blk with branchesWithUpdatedOver := setAdd blk.branchesWithUpdatedOver branch }
    else blk
  let blk2 := if u.newValueForNode then
      { blk1 with branchesWithUpdatedValue := setAdd blk1.branchesWithUpdatedValue branch }
    else blk1
  if u.newBestBranchForNode then
    { blk2 with branchesWithUpdatedBestBranch := setAdd blk2.branchesWithUpdatedBestBranch branch }
  else blk2

/-- Dataclass `UpdateInstructionsTowardsOneParentNode` (`updates_file.py`):
the value block and the optional index block (the latter reduced to its set
of branches with updated index). -/
structure UpdateTowardsParent where
  valueUpdates : ValueUpdatesTowardsOneParentNode
  indexUpdates : Option (List Nat)
deriving DecidableEq, Repr

/-- Dataclass `UpdateInstructionsFromOneNode` (`updates_file.py`): optional
value block and optional index block (reduced to its `updated_index` flag). -/
structure UpdateInstructionsFromOneNode where
  valueBlock : Option ValueUpdateInstructionsFromOneNode
  indexBlock : Option Bool
deriving DecidableEq, Repr

/-- Method `UpdateInstructionsTowardsMultipleNodes.add_update_from_one_child_node`
(lines 149-213 of `updates_file.py`) over the `one_node_instructions`
multimap (parent node id, in insertion order).  When the parent is not yet
present, a fresh `ValueUpdateInstructionsTowardsOneParentNode` is built
from three conditional reads of the value block, evaluated in the source's
argument order: `new_value_for_node`, `is_node_newly_over`, then
`new_best_move_for_node` (sic, line 183) — each modelled as a Python
attribute read.  When the parent is present, the inner
`add_update_from_a_child_node` path (lines 60-87) is taken, which asserts
both blocks' presence consistency and uses the correctly named fields. -/
def addUpdateFromOneChildNode (m : List (Nat × UpdateTowardsParent))
    (u : UpdateInstructionsFromOneNode) (parentNode branchFromParent : Nat) :
    Except String (List (Nat × UpdateTowardsParent)) :=
  match m.lookup parentNode with
  | none =>
      match u.valueBlock with
      | none => .error "assert update_from_child_node.value_block is not None"
      | some vb => do
          let newValue ← vuiReadAttr vb "new_value_for_node"
          let newlyOver ← vuiReadAttr vb "is_node_newly_over"
          let newBestMove ← vuiReadAttr vb "new_best_move_for_node"
          let valueUpdates : ValueUpdatesTowardsOneParentNode :=
            { branchesWithUpdatedValue := if newValue then [branchFromParent] else [],
              branchesWithUpdatedOver := if newlyOver then [branchFromParent] else [],
              branchesWithUpdatedBestBranch :=
                if newBestMove then [branchFromParent] else [] }
          let indexUpdates : Option (List Nat) :=
            match u.indexBlock with
            | some updatedIndex =>
                some (if updatedIndex then [branchFromParent] else [])
            | none => none
          .ok (dictSet m parentNode
            { valueUpdates := valueUpdates, indexUpdates := indexUpdates })
  | some existing =>
      match u.valueBlock with
      | none => .error "assert update_from_a_child_node.value_block is not None"
      | some vb =>
          let valueUpdates :=
            valueAddUpdateFromOneChildNode existing.valueUpdates vb branchFromParent
          match existing.indexUpdates with
          | none =>
              match u.indexBlock with
              | some _ => .error "assert update_from_a_child_node.index_block is None"
              | none =>
                  .ok (dictSet m parentNode { existing with valueUpdates := valueUpdates })
          | some idxs =>
              let indexUpdates : Option (List Nat) :=
                match u.indexBlock with
                | some updatedIndex =>
                    some (if updatedIndex then setAdd idxs branchFromParent else idxs)
                | none => some idxs
              .ok (dictSet m parentNode
                { valueUpdates := valueUpdates, indexUpdates := indexUpdates })

/-- C10: on the first-insertion path (parent not yet in the multimap) with
a value block present, `add_update_from_one_child_node` reads the field
`new_best_move_for_node` of the value block, which
`ValueUpdateInstructionsFromOneNode` (slots) does not define — the call
raises `AttributeError`; consequently every successful call had the parent
already present, so no pending-update entry is ever created for a fresh
parent. -/
theorem c10_addUpdateFromOneChildNode (m : List (Nat × UpdateTowardsParent))
    (u : UpdateInstructionsFromOneNode) (parentNode branchFromParent : Nat) :
    (m.lookup parentNode = none → ∀ vb, u.valueBlock = some vb →
      addUpdateFromOneChildNode m u parentNode branchFromParent =
        .error "AttributeError: new_best_move_for_node") ∧
    (∀ m1, addUpdateFromOneChildNode m u parentNode branchFromParent = .ok m1 →
      (m.lookup parentNode).isSome = true) := by
  constructor
  · intro hlk vb hvb
    unfold addUpdateFromOneChildNode
    rw [hlk]
    dsimp only
    rw [hvb]
    rfl
  · intro m1 h
    cases hlk : m.lookup parentNode with
    | some e => rfl
    | none =>
        exfalso
        unfold addUpdateFromOneChildNode at h
        rw [hlk] at h
        dsimp only at h
        cases hvb : u.valueBlock with
        | none => rw [hvb] at h; exact absurd h (by simp)
        | some vb =>
            rw [hvb] at h
            have herr : (match u.valueBlock with
                | none => Except.error
                    "assert update_from_child_node.value_block is not None"
                | some vb => (do
                    let newValue ← vuiReadAttr vb "new_value_for_node"
                    let newlyOver ← vuiReadAttr vb "is_node_newly_over"
                    let newBestMove ← vuiReadAttr vb "new_best_move_for_node"
                    let valueUpdates : ValueUpdatesTowardsOneParentNode :=
                      { branchesWithUpdatedValue :=
                          if newValue then [branchFromParent] else [],
                        branchesWithUpdatedOver :=
                          if newlyOver then [branchFromParent] else [],
                        branchesWithUpdatedBestBranch :=
                          if newBestMove then [branchFromParent] else [] }
                    let indexUpdates : Option (List Nat) :=
                      match u.indexBlock with
                      | some updatedIndex =>
                          some (if updatedIndex then [branchFromParent] else [])
                      | none => none
                    Except.ok (dictSet m parentNode
                      { valueUpdates := valueUpdates,
                        indexUpdates := indexUpdates })) :
                  Except String (List (Nat × UpdateTowardsParent))) =
                Except.error "AttributeError: new_best_move_for_node" := by
              rw [hvb]
              rfl
            rw [hvb] at herr
            rw [herr] at h
            exact absurd h (by simp)

/-- Witness for C10: at the empty multimap and a concrete value block, the
first-insertion path raises the attribute error. -/
theorem c10_witness :
    addUpdateFromOneChildNode []
        { valueBlock := some
            { nodeSendingUpdate := 0, isNodeNewlyOver := true,
              newValueForNode := true, newBestBranchForNode := true },
          indexBlock := none } 5 2 =
      .error "AttributeError: new_best_move_for_node" :=
  (c10_addUpdateFromOneChildNode []
    { valueBlock := some
        { nodeSendingUpdate := 0, isNodeNewlyOver := true,
          newValueForNode := true, newBestBranchForNode := true },
      indexBlock := none } 5 2).1 rfl
    { nodeSendingUpdate := 0, isNodeNewlyOver := true,
      newValueForNode := true, newBestBranchForNode := true } rfl

/-!
Search entry point (`tree_and_value_branch_selector.py`).  The collaborator
closures of `TreeAndValueBranchSelector` — building a `TreeExploration`
from a state (tree factory, node-selector factory, stopping criterion,
recommender) and running `TreeExploration.explore` — are deterministic
functions once the evaluator is (the claim's hypothesis), and the only
stateful dependency is the `random.Random` generator, modelled by its
state. -/

/-- State of a `random.Random` generator (Mersenne Twister state,
abstracted).  Modelled from the spec: `seed(n)` resets the state to a pure
function of `n`, discarding the previous state. -/
structure PyRandom where
  state : Nat
deriving DecidableEq, Repr

/-- `random.Random.seed(selection_seed)`: the resulting generator state
depends only on the seed. -/
def randomSeed (_g : PyRandom) (seed : Nat) : PyRandom :=
  { state := seed }

/-- The fields of `TreeAndValueBranchSelector` used by `select_branch`:
`create_tree_exploration` (a pure function of the configuration and the
state: `tree_factory.create`, `node_selector_create()` and
`create_stopping_criterion` draw nothing from the generator), the
exploration step `TreeExploration.explore` (threading the generator), and
the mutable `random_generator`. -/
structure TreeAndValueBranchSelectorM (S E R : Type) where
  createTreeExploration : S → E
  explore : E → PyRandom → R × PyRandom
  randomGenerator : PyRandom

/-- Method `TreeAndValueBranchSelector.select_branch`
(lines 57-93 of `tree_and_value_branch_selector.py`): builds the tree
exploration from the state, seeds `self.random_generator` with
`selection_seed`, and explores with the freshly seeded generator;
returns the branch recommendation and the selector with its mutated
generator. -/
def selectBranch {S E R : Type} (self : TreeAndValueBranchSelectorM S E R)
    (state : S) (selectionSeed : Nat) :
    R × TreeAndValueBranchSelectorM S E R :=
  let treeExploration := self.createTreeExploration state
  let seeded := randomSeed self.randomGenerator selectionSeed
  let explored := self.explore treeExploration seeded
  (explored.1, { self with randomGenerator := explored.2 })

/-- C9: two runs of `select_branch` with the same state, configuration
(creation and exploration closures, hence the same deterministic
evaluator) and seed produce identical recommendations — the generator is
seeded before exploration, so the outcome is independent of the incoming
generator states. -/
theorem c9_selectBranch {S E R : Type}
    (createTreeExploration : S → E) (explore : E → PyRandom → R × PyRandom)
    (g1 g2 : PyRandom) (state : S) (selectionSeed : Nat) :
    (selectBranch ⟨createTreeExploration, explore, g1⟩ state selectionSeed).1 =
      (selectBranch ⟨createTreeExploration, explore, g2⟩ state selectionSeed).1 ∧
    (selectBranch ⟨createTreeExploration, explore, g1⟩
        state selectionSeed).2.randomGenerator =
      (selectBranch ⟨createTreeExploration, explore, g2⟩
        state selectionSeed).2.randomGenerator :=
  ⟨rfl, rfl⟩

/-!
Tree expansion (`tree_manager/tree_manager.py`), tree nodes
(`nodes/tree_node.py`), the node factory (`node_factory/base.py`) and the
transposition table (`trees/descendants.py`, class `RangedDescendants`).
State tags and branch keys are naturals; node objects live in a heap
keyed by node id.
-/

/-- The fields of `TreeNode` (`nodes/tree_node.py`) used by tree
expansion: id, depth, state tag, the `parent_nodes` dict (parent node id
to branch key) and the `branches_children` dict (branch key to child node
id), both in insertion order. -/
structure PyTreeNode where
  id : Nat
  treeDepth : Nat
  tag : Nat
  parentNodes : List (Nat × Nat)
  branchesChildren : List (Nat × Nat)
deriving DecidableEq, Repr

/-- Class `RangedDescendants` (`trees/descendants.py`): the per-depth
transposition dicts (depth to (state tag to node id)), the descendant
counters and the depth range. -/
structure RangedDescendantsS where
  descendantsAtTreeDepth : List (Nat × List (Nat × Nat))
  numberOfDescendants : Nat
  numberOfDescendantsAtTreeDepth : List (Nat × Nat)
  minTreeDepth : Option Nat
  maxTreeDepth : Option Nat
deriving DecidableEq, Repr

/-- Method `RangedDescendants.is_new_generation`
(lines 304-318 of `descendants.py`). -/
def isNewGeneration (d : RangedDescendantsS) (treeDepth : Nat) :
    Except String Bool :=
  match d.minTreeDepth with
  | some _ =>
      match d.maxTreeDepth with
      | none => .error "assert max_tree_depth is not None"
      | some mx => .ok (decide (treeDepth = mx + 1))
  | none => .ok true

/-- Method `RangedDescendants.is_in_the_current_range`
(lines 320-334 of `descendants.py`). -/
def isInTheCurrentRange (d : RangedDescendantsS) (treeDepth : Nat) : Bool :=
  match d.minTreeDepth, d.maxTreeDepth with
  | some mn, some mx => decide (mn ≤ treeDepth) && decide (treeDepth ≤ mx)
  | _, _ => false

/-- Method `RangedDescendants.is_in_the_acceptable_range`
(lines 336-349 of `descendants.py`). -/
def isInTheAcceptableRange (d : RangedDescendantsS) (treeDepth : Nat) : Bool :=
  match d.minTreeDepth, d.maxTreeDepth with
  | some mn, some mx => decide (mn ≤ treeDepth) && decide (treeDepth ≤ mx + 1)
  | _, _ => true

/-- Method `RangedDescendants.add_descendant`
(lines 351-379 of `descendants.py`): asserts the depth is acceptable; in
the current range it asserts tag freshness when the depth dict exists and
indexes into it (a `KeyError` when absent, as in the source's subscript),
otherwise it asserts a new generation, installs a fresh singleton depth
dict and extends the range; finally increments `number_of_descendants`. -/
def addDescendant (d : RangedDescendantsS) (nodeId treeDepth tag : Nat) :
    Except String RangedDescendantsS :=
  if isInTheAcceptableRange d treeDepth then
    if isInTheCurrentRange d treeDepth then
      match d.descendantsAtTreeDepth.lookup treeDepth with
      | none => .error "KeyError: tree_depth"
      | some atDepth =>
          if (atDepth.lookup tag).isSome then
            .error "assert node_tag not in descendants_at_tree_depth"
          else
            match d.numberOfDescendantsAtTreeDepth.lookup treeDepth with
            | none => .error "KeyError: number_of_descendants_at_tree_depth"
            | some cnt =>
                .ok { d with
                  descendantsAtTreeDepth :=
                    dictSet d.descendantsAtTreeDepth treeDepth
                      (dictSet atDepth tag nodeId),
                  numberOfDescendantsAtTreeDepth :=
                    dictSet d.numberOfDescendantsAtTreeDepth treeDepth (cnt + 1),
                  numberOfDescendants := d.numberOfDescendants + 1 }
    else do
      let gen ← isNewGeneration d treeDepth
      if gen then
        match d.maxTreeDepth with
        | some mx =>
            .ok { d with
              descendantsAtTreeDepth :=
                dictSet d.descendantsAtTreeDepth treeDepth [(tag, nodeId)],
              numberOfDescendantsAtTreeDepth :=
                dictSet d.numberOfDescendantsAtTreeDepth treeDepth 1,
              maxTreeDepth := some (mx + 1),
              numberOfDescendants := d.numberOfDescendants + 1 }
        | none =>
            .ok { d with
              descendantsAtTreeDepth :=
                dictSet d.descendantsAtTreeDepth treeDepth [(tag, nodeId)],
              numberOfDescendantsAtTreeDepth :=
                dictSet d.numberOfDescendantsAtTreeDepth treeDepth 1,
              minTreeDepth := some treeDepth,
              maxTreeDepth := some treeDepth,
              numberOfDescendants := d.numberOfDescendants + 1 }
      else .error "assert is_new_generation"
  else .error "assert is_in_the_acceptable_range"

/-- Method `TreeNode.add_parent` (lines 164-182 of `tree_node.py`):
asserts the new parent is not already a parent, then registers it. -/
def addParent (n : PyTreeNode) (branchKey newParentId : Nat) :
    Except String PyTreeNode :=
  if (n.parentNodes.lookup newParentId).isSome then
    .error "assert new_parent_node not in self.parent_nodes"
  else
    .ok { n with parentNodes := dictSet n.parentNodes newParentId branchKey }

/-- Method `TreeNodeFactory.create` (lines 37-77 of `node_factory/base.py`):
builds a fresh node whose id is the current `tree.nodes_count`, with
`parent_nodes = {parent_node: branch_from_parent}` when a parent is
given. -/
def nodeFactoryCreate (stateTag treeDepth count : Nat)
    (parentId branchFromParent : Option Nat) : Except String PyTreeNode :=
  match parentId with
  | none => .ok { id := count, treeDepth := treeDepth, tag := stateTag,
                  parentNodes := [], branchesChildren := [] }
  | some p =>
      match branchFromParent with
      | none => .error "assert branch_from_parent is not None"
      | some b => .ok { id := count, treeDepth := treeDepth, tag := stateTag,
                        parentNodes := [(p, b)], branchesChildren := [] }

/-- The mutable tree state threaded through expansion: the node heap (by
node id), the transposition table and the two counters of `Tree`. -/
structure TreeState where
  nodes : List (Nat × PyTreeNode)
  descendants : RangedDescendantsS
  nodesCount : Nat
  moveCount : Nat
deriving DecidableEq, Repr

/-- The fields of the `TreeExpansion` record returned by
`open_tree_expansion_from_state`, with nodes kept by id. -/
structure TreeExpansionRec where
  childId : Nat
  parentId : Nat
  creationChildNode : Bool
  branchKey : Nat
deriving DecidableEq, Repr

/-- Dereference a node id in the heap. -/
def lookupNode (ts : TreeState) (nodeId : Nat) : Except String PyTreeNode :=
  match ts.nodes.lookup nodeId with
  | some n => .ok n
  | none => .error "KeyError: node"

/-- The statement `parent_node.branches_children[branch] = child` of
`open_tree_expansion_from_state`, as a heap update on the parent node. -/
def setBranchChild (ts : TreeState) (parentId branch childId : Nat) :
    Except String TreeState :=
  match ts.nodes.lookup parentId with
  | none => .error "KeyError: node"
  | some p =>
      .ok { ts with nodes := (dictSet ts.nodes parentId
        { p with branchesChildren := dictSet p.branchesChildren branch childId }) }

/-- Method `TreeManager.open_tree_expansion_from_state`
(lines 90-161 of `tree_manager.py`): computes the child depth, decides
`need_creation_child_node` from `is_new_generation` or absence of the
state tag at that depth (the source's short-circuit `or`, with the depth
subscript raising `KeyError` when absent), then either creates the child
via the node factory or reuses the existing child and calls `add_parent`
on it; finally records the child under the parent's branch and increments
`tree.move_count`. -/
def openTreeExpansionFromState (ts : TreeState) (parentId stateTag branch : Nat) :
    Except String (TreeState × TreeExpansionRec) := do
  let parentNode ← lookupNode ts parentId
  let treeDepth := parentNode.treeDepth + 1
  let gen ← isNewGeneration ts.descendants treeDepth
  let needCreationChildNode ←
    if gen then (Except.ok true : Except String Bool)
    else
      match ts.descendants.descendantsAtTreeDepth.lookup treeDepth with
      | none => .error "KeyError: tree_depth"
      | some atDepth => .ok (!(atDepth.lookup stateTag).isSome)
  if needCreationChildNode then do
    let childNode ← nodeFactoryCreate stateTag treeDepth ts.nodesCount
      (some parentId) (some branch)
    let ts1 := { ts with nodes := dictSet ts.nodes childNode.id childNode }
    let ts2 ← setBranchChild ts1 parentId branch childNode.id
    .ok ({ ts2 with moveCount := ts2.moveCount + 1 },
         { childId := childNode.id, parentId := parentId,
           creationChildNode := true, branchKey := branch })
  else do
    let childId ←
      match ts.descendants.descendantsAtTreeDepth.lookup treeDepth with
      | none => .error "KeyError: tree_depth"
      | some atDepth =>
          match atDepth.lookup stateTag with
          | none => .error "KeyError: state_tag"
          | some cid => (Except.ok cid : Except String Nat)
    let childExisting ← lookupNode ts childId
    let childExisting1 ← addParent childExisting branch parentId
    let ts1 := { ts with nodes := dictSet ts.nodes childId childExisting1 }
    let ts2 ← setBranchChild ts1 parentId branch childId
    .ok ({ ts2 with moveCount := ts2.moveCount + 1 },
         { childId := childId, parentId := parentId,
           creationChildNode := false, branchKey := branch })

/-- One iteration of `TreeManager.open_instructions`
(lines 165-202 of `tree_manager.py`): the expansion followed by the
creation bookkeeping `tree.nodes_count += 1` and
`tree.descendants.add_descendant(child)`. -/
def openOnce (ts : TreeState) (parentId stateTag branch : Nat) :
    Except String (TreeState × TreeExpansionRec) := do
  let r ← openTreeExpansionFromState ts parentId stateTag branch
  if r.2.creationChildNode then do
    let childNode ← lookupNode r.1 r.2.childId
    let d1 ← addDescendant r.1.descendants childNode.id childNode.treeDepth
      childNode.tag
    .ok ({ r.1 with nodesCount := r.1.nodesCount + 1, descendants := d1 }, r.2)
  else .ok r

/-!
Verification of the double-open behaviour.  Shared lookup lemmas for the
insertion-ordered dict model, then the characterizations of a creating
`openOnce` call.
-/

/-- A successful dict lookup witnesses membership of the entry. -/
theorem lookup_mem {V : Type} (l : List (Nat × V)) (k : Nat) (v : V)
    (h : l.lookup k = some v) : (k, v) ∈ l := by
  induction l with
  | nil => simp [List.lookup] at h
  | cons hd tl ih =>
      cases hd with
      | mk k0 v0 =>
          by_cases hk : k = k0
          · subst hk
            simp [List.lookup] at h
            subst h
            exact List.mem_cons_self _ _
          · have hbeq : (k == k0) = false := by simp [hk]
            rw [List.lookup, hbeq] at h
            exact List.mem_cons_of_mem _ (ih h)

theorem dictSet_lookup_self {V : Type} (l : List (Nat × V)) (k : Nat) (v : V) :
    (dictSet l k v).lookup k = some v := by
  induction l with
  | nil => simp [dictSet, List.lookup]
  | cons hd tl ih =>
      cases hd with
      | mk k0 v0 =>
          unfold dictSet
          by_cases h : k0 = k
          · rw [if_pos h]
            simp [List.lookup]
          · rw [if_neg h]
            have hbeq : (k == k0) = false := by simp [Ne.symm h]
            rw [List.lookup, hbeq]
            exact ih

theorem dictSet_lookup_ne {V : Type} (l : List (Nat × V)) (k k' : Nat) (v : V)
    (h : k' ≠ k) : (dictSet l k v).lookup k' = l.lookup k' := by
  induction l with
  | nil =>
      have hbeq : (k' == k) = false := by simp [h]
      simp [dictSet, List.lookup, hbeq]
  | cons hd tl ih =>
      cases hd with
      | mk k0 v0 =>
          unfold dictSet
          by_cases h0 : k0 = k
          · subst h0
            have hbeq : (k' == k0) = false := by simp [h]
            rw [if_pos rfl]
            rw [List.lookup, hbeq, List.lookup, hbeq]
          · rw [if_neg h0]
            by_cases hk0 : k' = k0
            · subst hk0
              rw [List.lookup, List.lookup]
              simp
            · have hbeq : (k' == k0) = false := by simp [hk0]
              rw [List.lookup, hbeq, List.lookup, hbeq]
              exact ih

/-- After a creating `add_descendant`, the depth of the added node is no
longer a new generation and the transposition table resolves its state tag
to the added node id.  The hypothesis is the class invariant that
`min_tree_depth` and `max_tree_depth` are unset together. -/
theorem c4AddDescResolve (dsc : RangedDescendantsS) (cnt D tag : Nat)
    (d1 : RangedDescendantsS)
    (hmm : dsc.minTreeDepth = none → dsc.maxTreeDepth = none)
    (hd : addDescendant dsc cnt D tag = .ok d1) :
    isNewGeneration d1 D = .ok false ∧
    ∃ AD1, List.lookup D d1.descendantsAtTreeDepth = some AD1 ∧
      List.lookup tag AD1 = some cnt := by
  unfold addDescendant at hd
  cases hacc : isInTheAcceptableRange dsc D with
  | false =>
      rw [hacc] at hd
      simp at hd
  | true =>
      rw [hacc] at hd
      rw [if_pos rfl] at hd
      cases hcur : isInTheCurrentRange dsc D with
      | true =>
          rw [hcur] at hd
          rw [if_pos rfl] at hd
          cases hADl : List.lookup D dsc.descendantsAtTreeDepth with
          | none => rw [hADl] at hd; simp at hd
          | some AD =>
              rw [hADl] at hd
              dsimp only at hd
              cases htg : (List.lookup tag AD).isSome with
              | true => rw [htg] at hd; rw [if_pos rfl] at hd; simp at hd
              | false =>
                  rw [htg] at hd
                  rw [if_neg (by simp)] at hd
                  cases hcnl : List.lookup D dsc.numberOfDescendantsAtTreeDepth with
                  | none => rw [hcnl] at hd; simp at hd
                  | some c =>
                      rw [hcnl] at hd
                      dsimp only at hd
                      simp only [Except.ok.injEq] at hd
                      subst hd
                      have hminmax : ∃ mn mx, dsc.minTreeDepth = some mn ∧
                          dsc.maxTreeDepth = some mx ∧ mn ≤ D ∧ D ≤ mx := by
                        unfold isInTheCurrentRange at hcur
                        cases hmin : dsc.minTreeDepth with
                        | none => rw [hmin] at hcur; simp at hcur
                        | some mn =>
                            cases hmax : dsc.maxTreeDepth with
                            | none => rw [hmin, hmax] at hcur; simp at hcur
                            | some mx =>
                                rw [hmin, hmax] at hcur
                                dsimp only at hcur
                                simp only [Bool.and_eq_true, decide_eq_true_eq] at hcur
                                exact ⟨mn, mx, rfl, rfl, hcur.1, hcur.2⟩
                      obtain ⟨mn, mx, hmin, hmax, h1, h2⟩ := hminmax
                      constructor
                      · unfold isNewGeneration
                        dsimp only
                        rw [hmin]
                        dsimp only
                        rw [hmax]
                        dsimp only
                        simp only [Except.ok.injEq, decide_eq_false_iff_not]
                        omega
                      · refine ⟨dictSet AD tag cnt, ?_, ?_⟩
                        · exact dictSet_lookup_self _ _ _
                        · exact dictSet_lookup_self _ _ _
      | false =>
          rw [hcur] at hd
          rw [if_neg (by simp)] at hd
          cases hmin : dsc.minTreeDepth with
          | none =>
              have hmax := hmm hmin
              unfold isNewGeneration at hd
              rw [hmin] at hd
              dsimp only at hd
              simp only [exceptBindOk, if_true] at hd
              rw [hmax] at hd
              dsimp only at hd
              simp only [Except.ok.injEq] at hd
              subst hd
              constructor
              · unfold isNewGeneration
                dsimp only
                simp only [Except.ok.injEq, decide_eq_false_iff_not]
                omega
              · refine ⟨[(tag, cnt)], ?_, ?_⟩
                · exact dictSet_lookup_self _ _ _
                · simp [List.lookup]
          | some mn =>
              cases hmax : dsc.maxTreeDepth with
              | none =>
                  unfold isNewGeneration at hd
                  rw [hmin] at hd
                  rw [hmax] at hd
                  simp only [exceptBindErr] at hd
                  simp at hd
              | some mx =>
                  unfold isNewGeneration at hd
                  rw [hmin] at hd
                  dsimp only at hd
                  rw [hmax] at hd
                  dsimp only at hd
                  simp only [exceptBindOk] at hd
                  cases hDeq : decide (D = mx + 1) with
                  | false => rw [hDeq] at hd; simp at hd
                  | true =>
                      rw [hDeq] at hd
                      rw [if_pos rfl] at hd
                      simp only [Except.ok.injEq] at hd
                      subst hd
                      have hD : D = mx + 1 := of_decide_eq_true hDeq
                      constructor
                      · unfold isNewGeneration
                        dsimp only
                        simp only [Except.ok.injEq, decide_eq_false_iff_not]
                        omega
                      · refine ⟨[(tag, cnt)], ?_, ?_⟩
                        · exact dictSet_lookup_self _ _ _
                        · simp [List.lookup]

/-- Resolution of the creation branch of `open_tree_expansion_from_state`:
the resulting state and expansion record, given that the parent id is
allocated and differs from the fresh child id. -/
theorem c4CreationResolve (ts : TreeState) (p stateTag b : Nat)
    (parent : PyTreeNode) (rA : TreeState × TreeExpansionRec)
    (hpar : ts.nodes.lookup p = some parent)
    (hplt : p ≠ ts.nodesCount)
    (hE : (do
      let childNode ← nodeFactoryCreate stateTag (parent.treeDepth + 1)
        ts.nodesCount (some p) (some b)
      let ts2 ← setBranchChild
        { ts with nodes := dictSet ts.nodes childNode.id childNode } p b childNode.id
      Except.ok ({ ts2 with moveCount := ts2.moveCount + 1 },
        { childId := childNode.id, parentId := p,
          creationChildNode := true, branchKey := b })) = Except.ok rA) :
    rA = ({ ts with
            nodes := (dictSet (dictSet ts.nodes ts.nodesCount
              { id := ts.nodesCount, treeDepth := parent.treeDepth + 1,
                tag := stateTag, parentNodes := [(p, b)], branchesChildren := [] }) p
              { parent with branchesChildren := (dictSet parent.branchesChildren b ts.nodesCount) }),
            moveCount := ts.moveCount + 1 },
          { childId := ts.nodesCount, parentId := p,
            creationChildNode := true, branchKey := b }) := by
  unfold nodeFactoryCreate at hE
  dsimp only at hE
  simp only [exceptBindOk] at hE
  unfold setBranchChild at hE
  dsimp only at hE
  rw [dictSet_lookup_ne _ _ _ _ hplt] at hE
  rw [hpar] at hE
  dsimp only at hE
  simp only [exceptBindOk, Except.ok.injEq] at hE
  exact hE.symm

/-- C4 amended: re-opening an already-opened `(parent, branch_key)` whose
first opening created the child is not a no-op: the dedup lookup does find
the existing child in the transposition table and no new node is created,
but `TreeNode.add_parent` then fails its assertion that the parent is not
already registered, so the second call raises `AssertionError` (and in
particular increments neither `nodes_count` nor `move_count`, since
`tree.move_count += 1` sits after the failing call).  The first call
increments both counters.  Hypotheses: allocated node ids lie below
`nodes_count`, and the descendants range bounds are unset together (both
maintained by the tree factory and `open_instructions`). -/
theorem c4_reopen (ts ts1 : TreeState) (p stateTag b : Nat) (exp : TreeExpansionRec)
    (hopen : openOnce ts p stateTag b = .ok (ts1, exp))
    (hcr : exp.creationChildNode = true)
    (hfresh : ∀ kv ∈ ts.nodes, kv.1 < ts.nodesCount)
    (hmm : ts.descendants.minTreeDepth = none → ts.descendants.maxTreeDepth = none) :
    openOnce ts1 p stateTag b =
      .error "assert new_parent_node not in self.parent_nodes" ∧
    ts1.nodesCount = ts.nodesCount + 1 ∧
    ts1.moveCount = ts.moveCount + 1 := by
  unfold openOnce at hopen
  cases hE : openTreeExpansionFromState ts p stateTag b with
  | error e =>
      rw [hE] at hopen
      simp only [exceptBindErr] at hopen
      exact absurd hopen (by simp)
  | ok rA =>
      rw [hE] at hopen
      simp only [exceptBindOk] at hopen
      by_cases hcrA : rA.2.creationChildNode = true
      · rw [if_pos hcrA] at hopen
        cases hch : lookupNode rA.1 rA.2.childId with
        | error e =>
            rw [hch] at hopen
            simp only [exceptBindErr] at hopen
            exact absurd hopen (by simp)
        | ok child =>
            rw [hch] at hopen
            simp only [exceptBindOk] at hopen
            cases hd : addDescendant rA.1.descendants child.id child.treeDepth child.tag with
            | error e =>
                rw [hd] at hopen
                simp only [exceptBindErr] at hopen
                exact absurd hopen (by simp)
            | ok d1 =>
                rw [hd] at hopen
                simp only [exceptBindOk, Except.ok.injEq, Prod.mk.injEq] at hopen
                obtain ⟨hts1, hexp⟩ := hopen
                unfold openTreeExpansionFromState lookupNode at hE
                cases hpar : ts.nodes.lookup p with
                | none =>
                    rw [hpar] at hE
                    exact absurd hE (by simp)
                | some parent =>
                    rw [hpar] at hE
                    dsimp only at hE
                    simp only [exceptBindOk] at hE
                    have hplt : p ≠ ts.nodesCount := by
                      have := hfresh (p, parent) (lookup_mem _ _ _ hpar)
                      omega
                    have hcnp : ts.nodesCount ≠ p := fun h => hplt h.symm
                    cases hgen : isNewGeneration ts.descendants (parent.treeDepth + 1) with
                    | error e =>
                        rw [hgen] at hE
                        simp only [exceptBindErr] at hE
                        exact absurd hE (by simp)
                    | ok gen =>
                        rw [hgen] at hE
                        simp only [exceptBindOk] at hE
                        have hrA : rA = ({ ts with
                            nodes := (dictSet (dictSet ts.nodes ts.nodesCount
                              { id := ts.nodesCount, treeDepth := parent.treeDepth + 1,
                                tag := stateTag, parentNodes := [(p, b)],
                                branchesChildren := [] }) p
                              { parent with branchesChildren := (dictSet parent.branchesChildren b ts.nodesCount) }),
                            moveCount := ts.moveCount + 1 },
                          { childId := ts.nodesCount, parentId := p,
                            creationChildNode := true, branchKey := b }) := by
                          cases gen with
                          | true =>
                              simp only [if_pos rfl, if_true] at hE
                              exact c4CreationResolve ts p stateTag b parent rA hpar hplt hE
                          | false =>
                              simp only [Bool.false_eq_true, if_false] at hE
                              cases hAD : List.lookup (parent.treeDepth + 1)
                                  ts.descendants.descendantsAtTreeDepth with
                              | none =>
                                  rw [hAD] at hE
                                  simp only [exceptBindErr] at hE
                                  exact absurd hE (by simp)
                              | some atDepth =>
                                  rw [hAD] at hE
                                  dsimp only at hE
                                  cases htg : List.lookup stateTag atDepth with
                                  | none =>
                                      rw [htg] at hE
                                      simp only [Option.isSome_none, Bool.not_false,
                                        if_true, if_pos rfl] at hE
                                      exact c4CreationResolve ts p stateTag b parent rA hpar hplt hE
                                  | some cid =>
                                      rw [htg] at hE
                                      simp only [Option.isSome_some, Bool.not_true,
                                        Bool.false_eq_true, if_false] at hE
                                      exfalso
                                      cases hce : List.lookup cid ts.nodes with
                                      | none =>
                                          rw [hce] at hE
                                          simp only [exceptBindErr] at hE
                                          exact absurd hE (by simp)
                                      | some ce =>
                                          rw [hce] at hE
                                          dsimp only at hE
                                          simp only [exceptBindOk] at hE
                                          cases hap : addParent ce b p with
                                          | error e =>
                                              rw [hap] at hE
                                              simp only [exceptBindErr] at hE
                                              exact absurd hE (by simp)
                                          | ok ce1 =>
                                              rw [hap] at hE
                                              simp only [exceptBindOk] at hE
                                              cases hsb : setBranchChild
                                                  { ts with nodes := dictSet ts.nodes cid ce1 }
                                                  p b cid with
                                              | error e =>
                                                  rw [hsb] at hE
                                                  simp only [exceptBindErr] at hE
                                                  exact absurd hE (by simp)
                                              | ok ts2 =>
                                                  rw [hsb] at hE
                                                  simp only [exceptBindOk, Except.ok.injEq] at hE
                                                  rw [← hE] at hcrA
                                                  simp at hcrA
                        subst hrA
                        dsimp only at hch
                        dsimp only at hd
                        dsimp only at hts1
                        unfold lookupNode at hch
                        dsimp only at hch
                        rw [dictSet_lookup_ne _ _ _ _ hcnp, dictSet_lookup_self] at hch
                        dsimp only at hch
                        simp only [Except.ok.injEq] at hch
                        subst hch
                        dsimp only at hd
                        obtain ⟨FA, AD1, FB1, FB2⟩ :=
                          c4AddDescResolve ts.descendants ts.nodesCount
                            (parent.treeDepth + 1) stateTag d1 hmm hd
                        refine ⟨?_, ?_, ?_⟩
                        · rw [← hts1]
                          unfold openOnce openTreeExpansionFromState lookupNode
                          dsimp only
                          rw [dictSet_lookup_self]
                          simp only [exceptBindOk]
                          rw [FA]
                          simp only [exceptBindOk, Bool.false_eq_true, if_false]
                          rw [FB1]
                          dsimp only
                          rw [FB2]
                          simp only [Option.isSome_some, Bool.not_true,
                            Bool.false_eq_true, if_false]
                          rw [dictSet_lookup_ne _ _ _ _ hcnp, dictSet_lookup_self]
                          dsimp only
                          unfold addParent
                          simp only [exceptBindOk]
                          rw [show List.lookup p [(p, b)] = some b from by simp [List.lookup]]
                          simp only [Option.isSome_some, if_pos rfl]
                          simp only [if_true, exceptBindErr]
                        · rw [← hts1]
                        · rw [← hts1]
      · rw [if_neg hcrA] at hopen
        simp only [Except.ok.injEq] at hopen
        rw [hopen] at hcrA
        exact absurd hcr hcrA

/-- Root node of the concrete double-open run. -/
def c4root : PyTreeNode :=
  { id := 0, treeDepth := 0, tag := 100, parentNodes := [], branchesChildren := [] }

/-- A fresh one-node tree as built by `ValueTreeFactory.create`: the root
at depth 0 is registered in the transposition table, `nodes_count = 1`,
`move_count = 0`. -/
def c4ts0 : TreeState :=
  { nodes := [(0, c4root)],
    descendants :=
      { descendantsAtTreeDepth := [(0, [(100, 0)])],
        numberOfDescendants := 1,
        numberOfDescendantsAtTreeDepth := [(0, 1)],
        minTreeDepth := some 0,
        maxTreeDepth := some 0 },
    nodesCount := 1,
    moveCount := 0 }

/-- The tree state after opening branch 5 of the root onto state tag 200. -/
def c4ts1 : TreeState :=
  { nodes := [(0, { id := 0, treeDepth := 0, tag := 100, parentNodes := [],
                    branchesChildren := [(5, 1)] }),
              (1, { id := 1, treeDepth := 1, tag := 200, parentNodes := [(0, 5)],
                    branchesChildren := [] })],
    descendants :=
      { descendantsAtTreeDepth := [(0, [(100, 0)]), (1, [(200, 1)])],
        numberOfDescendants := 2,
        numberOfDescendantsAtTreeDepth := [(0, 1), (1, 1)],
        minTreeDepth := some 0,
        maxTreeDepth := some 1 },
    nodesCount := 2,
    moveCount := 1 }

/-- The expansion record of that first opening. -/
def c4exp : TreeExpansionRec :=
  { childId := 1, parentId := 0, creationChildNode := true, branchKey := 5 }

/-- C4 counterexample: on a fresh tree, the first opening of (root,
branch 5) succeeds (creating the child: `nodes_count` 2, `move_count` 1),
but repeating the same opening raises the duplicate-parent assertion of
`TreeNode.add_parent` instead of being a no-op that increments
`move_count`. -/
theorem c4_counterexample :
    (openOnce c4ts0 0 200 5).map
        (fun r => (r.1.nodesCount, r.1.moveCount, r.2.creationChildNode)) =
      .ok (2, 1, true) ∧
    (openOnce c4ts0 0 200 5).bind (fun r => openOnce r.1 0 200 5) =
      .error "assert new_parent_node not in self.parent_nodes" :=
  ⟨rfl, rfl⟩

/-- Witness for C4: the amended theorem applied to the concrete run. -/
theorem c4_witness :
    openOnce c4ts1 0 200 5 =
      .error "assert new_parent_node not in self.parent_nodes" ∧
    c4ts1.nodesCount = c4ts0.nodesCount + 1 ∧
    c4ts1.moveCount = c4ts0.moveCount + 1 :=
  c4_reopen c4ts0 c4ts1 0 200 5 c4exp rfl rfl (by decide) (by decide)

end Anemone
